import Mathlib

/-!
Verification development for the release-synchronization script
`.github/script/release_sync.py`.

The Python source is shallowly embedded: pure string manipulation is
translated to Lean functions over `List Char` (with `String` wrappers
keeping the source's function names), the descriptor files are modelled
as explicit data (a flat `version` field for `package.json`, a tree of
tagged elements for `pom.xml`), and the orchestrator `main` is modelled
as a function from an environment record (the results of the external
git / gh commands) to the list of attempted external actions plus an
optional terminating error.

Regular expressions are embedded by their operational semantics:
`re.search(r'\d+\.\d+\.\d+', v)` is a left-to-right scan for the first
position where a greedy digits-dot-digits-dot-digits match succeeds,
`re.match(r'^release\/(\d+\.\d+\.\d+)$', b)` anchors at the start and
accepts an optional final newline (Python's `$`), and the
case-insensitive `snapshot` searches / substitutions are explicit scans.
Digits are modelled as ASCII digits.
-/

/-- ASCII digit test, modelling `\d` of the source's regular expressions
(restricted to ASCII, which is all the script's data contains). -/
def isDig (c : Char) : Bool := '0' ≤ c && c ≤ '9'

/-- Maximal digit run at the head of the list: returns the run and the rest.
This is the operational behaviour of a greedy `\d+` at a fixed position. -/
def takeDigits : List Char → List Char × List Char
  | [] => ([], [])
  | c :: cs =>
    if isDig c then
      let p := takeDigits cs
      (c :: p.1, p.2)
    else ([], c :: cs)

/-- Attempt to match the regex `\d+\.\d+\.\d+` at the head of the list
(greedy runs). Returns the matched characters and the remainder. -/
def matchSemverAt (l : List Char) : Option (List Char × List Char) :=
  match takeDigits l with
  | (d1, r1) =>
    if d1 = [] then none else
    match r1 with
    | c :: r2 =>
      if c = '.' then
        match takeDigits r2 with
        | (d2, r3) =>
          if d2 = [] then none else
          match r3 with
          | c2 :: r4 =>
            if c2 = '.' then
              match takeDigits r4 with
              | (d3, r5) =>
                if d3 = [] then none else
                some (d1 ++ '.' :: d2 ++ '.' :: d3, r5)
            else none
          | [] => none
      else none
    | [] => none

/-- Left-to-right scan for the first position where `matchSemverAt`
succeeds; returns (characters before the match, match, characters after).
This is the operational behaviour of `re.search(r'\d+\.\d+\.\d+', v)`. -/
def findAux : List Char → Option (List Char × List Char × List Char)
  | [] => none
  | c :: cs =>
    match matchSemverAt (c :: cs) with
    | some (m, rest) => some ([], m, rest)
    | none =>
      match findAux cs with
      | some (p, m, r) => some (c :: p, m, r)
      | none => none

/-- Embedding of `split_version_str` (release_sync.py, lines 51-64):
split a version-like string into `(prefix, semver, suffix)` around the
first `\d+\.\d+\.\d+` match, or `None` when there is no match. -/
def split_version_str (v : String) : Option (String × String × String) :=
  match findAux v.data with
  | none => none
  | some (p, m, r) => some (String.mk p, String.mk m, String.mk r)

/-- Decimal digit character (used to model Python's integer formatting). -/
def digitChar : Nat → Char
  | 0 => '0'
  | 1 => '1'
  | 2 => '2'
  | 3 => '3'
  | 4 => '4'
  | 5 => '5'
  | 6 => '6'
  | 7 => '7'
  | 8 => '8'
  | _ => '9'

/-- Fuel-driven decimal rendering (structural recursion so that closed
terms reduce in the kernel); `fuel ≥ n` suffices. -/
def natToDecAux : Nat → Nat → List Char
  | 0, n => [digitChar n]
  | fuel + 1, n =>
    if n < 10 then [digitChar n]
    else natToDecAux fuel (n / 10) ++ [digitChar (n % 10)]

/-- Decimal rendering of a natural number, modelling Python's
`f"{n}"` for a non-negative `int`. -/
def natToDec (n : Nat) : List Char := natToDecAux n n

/-- Python's `str.split('.')`: split on every `'.'`, keeping empty pieces. -/
def pySplitDot : List Char → List (List Char)
  | [] => [[]]
  | c :: cs =>
    if c = '.' then [] :: pySplitDot cs
    else
      match pySplitDot cs with
      | h :: t => (c :: h) :: t
      | [] => [[c]]

/-- Python's `int(s)` restricted to non-empty ASCII digit strings (all the
script ever feeds it); anything else raises, modelled as `none`. -/
def pyInt : List Char → Option Nat
  | [] => none
  | l => if l.all isDig then some (l.foldl (fun a c => a * 10 + (c.toNat - 48)) 0) else none

/-- Embedding of `bump_minor_semver` (release_sync.py, lines 66-70):
`major, minor, patch = map(int, semver.split('.'))`, then return
`f"{major}.{minor+1}.0"`. A string that does not split into exactly three
integer components raises in Python, modelled as `none`. -/
def bump_minor_semver (semver : String) : Option String :=
  match pySplitDot semver.data with
  | [a, b, c] =>
    match pyInt a, pyInt b, pyInt c with
    | some A, some B, some _ =>
      some (String.mk (natToDec A ++ '.' :: natToDec (B + 1) ++ '.' :: ['0']))
    | _, _, _ => none
  | _ => none

/-- Shape test for a whole string of the form `\d+\.\d+\.\d+` (nothing
before or after): used to state the branch-name characterization. -/
def isStrictSemver (l : List Char) : Bool :=
  match matchSemverAt l with
  | some (_, rest) => rest = []
  | none => false

/-- Tail of `extract_version_from_branch`: match `(\d+\.\d+\.\d+)$` against
the part after `release/`. Python's `$` also matches just before a single
final newline, so the remainder after the three digit runs must be empty
or exactly a final `'\n'`. -/
def extractCore (rest : List Char) : Option (List Char) :=
  match matchSemverAt rest with
  | some (core, tail) => if tail = [] ∨ tail = ['\n'] then some core else none
  | none => none

/-- Embedding of `extract_version_from_branch` (release_sync.py, lines
45-49): `re.match(r"^release\/(?P<ver>\d+\.\d+\.\d+)$", branch)` and the
captured group on success, `None` otherwise. Note the pattern accepts
only `release/` branches. -/
def extract_version_from_branch (branch : String) : Option String :=
  match branch.data with
  | 'r' :: 'e' :: 'l' :: 'e' :: 'a' :: 's' :: 'e' :: '/' :: rest =>
    match extractCore rest with
    | some core => some (String.mk core)
    | none => none
  | _ => none

/-- Case-insensitive character comparison, modelling `re.IGNORECASE`
over ASCII. -/
def ciEqChar (a b : Char) : Bool := a.toLower == b.toLower

/-- Does the pattern occur (case-insensitively) as a prefix of the list? -/
def ciIsPrefixOf : List Char → List Char → Bool
  | [], _ => true
  | _ :: _, [] => false
  | p :: ps, c :: cs => ciEqChar p c && ciIsPrefixOf ps cs

/-- The pre-release marker token of the script, as a character list. -/
def snapTok : List Char := ['s', 'n', 'a', 'p', 's', 'h', 'o', 't']

/-- Head of the list starts a case-insensitive `snapshot` occurrence. -/
def startsSnap (l : List Char) : Bool := ciIsPrefixOf snapTok l

/-- Operational behaviour of `re.search(r'snapshot', s, re.IGNORECASE)`:
is there any position where the token matches case-insensitively? -/
def containsSnapL : List Char → Bool
  | [] => false
  | c :: cs => startsSnap (c :: cs) || containsSnapL cs

/-- String wrapper for `containsSnapL`. -/
def containsSnap (s : String) : Bool := containsSnapL s.data

/-- Fuel-driven scan for `removeSnapL` (structural recursion so that
closed terms reduce in the kernel); every step consumes at least one
character, so `fuel ≥ length` gives the intended result. -/
def removeSnapAux : Nat → List Char → List Char
  | 0, l => l
  | _ + 1, [] => []
  | fuel + 1, c :: cs =>
    if c = '-' ∧ startsSnap cs then removeSnapAux fuel (cs.drop 8)
    else if startsSnap (c :: cs) then removeSnapAux fuel (cs.drop 7)
    else c :: removeSnapAux fuel cs

/-- Operational behaviour of
`re.sub(r'[-]?snapshot', '', text, flags=re.IGNORECASE)`: a left-to-right
scan removing each (non-overlapping) occurrence of an optional `-`
followed by the token. -/
def removeSnapL (l : List Char) : List Char := removeSnapAux l.length l

/-- Fuel-driven scan for `subSnapL`. -/
def subSnapAux (repl : List Char) : Nat → List Char → List Char
  | 0, l => l
  | _ + 1, [] => []
  | fuel + 1, c :: cs =>
    if startsSnap (c :: cs) then repl ++ subSnapAux repl fuel (cs.drop 7)
    else c :: subSnapAux repl fuel cs

/-- Operational behaviour of `re.sub(r'(?i)snapshot', repl, text)`:
replace each case-insensitive occurrence of the token by `repl`. -/
def subSnapL (repl : List Char) (l : List Char) : List Char :=
  subSnapAux repl l.length l

/-- Python whitespace test for `str.strip()` (ASCII whitespace). -/
def isPySpace (c : Char) : Bool :=
  c = ' ' || c = '\t' || c = '\n' || c = '\r' || c = '\x0b' || c = '\x0c'

/-- Embedding of Python's `str.strip()`: drop leading and trailing
whitespace. -/
def pyStrip (s : String) : String :=
  String.mk (((s.data.dropWhile isPySpace).reverse.dropWhile isPySpace).reverse)

/-- Loop body of `update_package_json_remove_snapshot` (release_sync.py,
lines 85-101) for one `package.json` `version` value `v`: `None` when the
file is skipped or the rewrite would not change the text, `some new`
when the field is rewritten to `new` (and the file reported changed).
`v = ""` models Python's `if not v: continue` for an empty field. -/
def pkgStripField (source_semver v : String) : Option String :=
  if v = "" then none else
  match split_version_str v with
  | none => none
  | some (pre, semver, suf) =>
    if semver = source_semver ∨ containsSnap suf then
      let new_v := pre ++ semver
      if new_v ≠ v then some new_v else none
    else none

/-- Loop body of `update_package_json_add_snapshot_bump` (release_sync.py,
lines 108-128) for one `version` value, with `bumped` the precomputed
`bump_minor_semver(source_semver)`. -/
def pkgBumpField (source_semver bumped v : String) : Option String :=
  if v = "" then none else
  match split_version_str v with
  | none => none
  | some (pre, semver, suf) =>
    if semver = source_semver ∨ containsSnap suf then
      let new_v := pre ++ bumped ++ "-snapshot"
      if new_v ≠ v then some new_v else none
    else none

/-- Per-element text transformation of `update_pom_remove_snapshot`
(release_sync.py, lines 161-179): the element text is stripped of
surrounding whitespace, empty text is skipped, text with no semver but a
case-insensitive `snapshot` occurrence has the token(s) removed textually
(unconditionally marking the file modified), and decomposable text is
rewritten to `prefix + semver` when the semver equals the source semver
or `snapshot` occurs in the suffix or anywhere in the text. -/
def pomStripText (source_semver raw : String) : Option String :=
  let text := pyStrip raw
  if text = "" then none else
  match split_version_str text with
  | none =>
    if containsSnap text then some (String.mk (removeSnapL text.data)) else none
  | some (pre, semver, suf) =>
    if semver = source_semver ∨ containsSnap suf ∨ containsSnap text then
      let new_text := pre ++ semver
      if new_text ≠ text then some new_text else none
    else none

/-- Per-element text transformation of `update_pom_add_snapshot_bump`
(release_sync.py, lines 211-231), with `bumped` the precomputed
`bump_minor_semver(source_semver)`: text with no semver but a `snapshot`
occurrence has each occurrence replaced by `bumped + "-SNAPSHOT"`
(unconditionally marking the file modified); decomposable text is
rewritten to `prefix + bumped + "-SNAPSHOT"` when the semver equals the
source semver or the suffix contains `snapshot`. -/
def pomBumpText (source_semver bumped raw : String) : Option String :=
  let text := pyStrip raw
  if text = "" then none else
  match split_version_str text with
  | none =>
    if containsSnap text then
      some (String.mk (subSnapL (bumped.data ++ ('-' :: ['S', 'N', 'A', 'P', 'S', 'H', 'O', 'T'])) text.data))
    else none
  | some (pre, semver, suf) =>
    if semver = source_semver ∨ containsSnap suf then
      let new_text := pre ++ bumped ++ "-SNAPSHOT"
      if new_text ≠ text then some new_text else none
    else none

/-!
An XML element as used by the script: a (possibly namespaced) tag,
its text (ElementTree's `None` text is identified with `""`, exactly as
the script's `elem.text.strip() if elem.text else ""` does), and its
children. `XList` is the mutual list type for the children.
-/
mutual
inductive XElem : Type where
  | mk (tag : String) (text : String) (children : XList)
deriving DecidableEq
inductive XList : Type where
  | nil : XList
  | cons (e : XElem) (es : XList) : XList
deriving DecidableEq
end

/-- The tag of an element. -/
def XElem.tag : XElem → String
  | .mk t _ _ => t

/-- The text of an element. -/
def XElem.text : XElem → String
  | .mk _ x _ => x

/-- The children of an element. -/
def XElem.children : XElem → XList
  | .mk _ _ k => k

/-- Embedding of the script's local-tag computation
`elem.tag.split('}')[-1] if '}' in elem.tag else elem.tag`: the part of
the tag after the last `'}'` (the whole tag when there is none). -/
def localTag (t : String) : String :=
  String.mk ((t.data.reverse.takeWhile (fun c => c != '\x7d')).reverse)

/-- Embedding of Python's `str.lower()` (ASCII). -/
def pyLower (s : String) : String := String.mk (s.data.map Char.toLower)

/-- The ancestor tags excluded by both pom passes (release_sync.py,
lines 155 and 205): the tuple
`("dependency", "dependencies", "dependencyManagement", "plugin", "plugins")`. -/
def skipTags : List String :=
  ["dependency", "dependencies", "dependencyManagement", "plugin", "plugins"]

/-- Is this element's local tag in the excluded tuple (exact case, as in
the source)? -/
def isSkipTag (t : String) : Bool := skipTags.contains (localTag t)

/-- Is this element a `version` element (case-insensitive local tag, as
in the source's `tag_local.lower() != "version"`)? -/
def isVersionTag (t : String) : Bool := pyLower (localTag t) == "version"

/-!
Tree walk of `update_pom_remove_snapshot` (release_sync.py, lines
146-179). `anc` records whether some proper ancestor of the current
element has a tag in `skipTags` (the source recovers this by walking the
`parent_map` chain upward from each `version` element). Returns the
rewritten element and whether any element was modified.
-/
mutual
def stripElem (src : String) (anc : Bool) : XElem → XElem × Bool
  | .mk tag text kids =>
    let own : String × Bool :=
      if isVersionTag tag ∧ anc = false then
        match pomStripText src text with
        | some new_text => (new_text, true)
        | none => (text, false)
      else (text, false)
    let rec_ := stripElems src (anc || isSkipTag tag) kids
    (.mk tag own.1 rec_.1, own.2 || rec_.2)
def stripElems (src : String) (anc : Bool) : XList → XList × Bool
  | .nil => (.nil, false)
  | .cons e es =>
    let r1 := stripElem src anc e
    let r2 := stripElems src anc es
    (.cons r1.1 r2.1, r1.2 || r2.2)
end

/-!
Tree walk of `update_pom_add_snapshot_bump` (release_sync.py, lines
196-231), with `bumped` the precomputed `bump_minor_semver(source_semver)`.
Also returns the last rewritten text in document order, modelling the
repeated assignment to `new_version_global`.
-/
mutual
def bumpElem (src bumped : String) (anc : Bool) : XElem → XElem × Bool × Option String
  | .mk tag text kids =>
    let own : String × Bool × Option String :=
      if isVersionTag tag ∧ anc = false then
        match pomBumpText src bumped text with
        | some new_text => (new_text, true, some new_text)
        | none => (text, false, none)
      else (text, false, none)
    let rec_ := bumpElems src bumped (anc || isSkipTag tag) kids
    (.mk tag own.1 rec_.1, own.2.1 || rec_.2.1,
      match rec_.2.2 with
      | some v => some v
      | none => own.2.2)
def bumpElems (src bumped : String) (anc : Bool) : XList → XList × Bool × Option String
  | .nil => (.nil, false, none)
  | .cons e es =>
    let r1 := bumpElem src bumped anc e
    let r2 := bumpElems src bumped anc es
    (.cons r1.1 r2.1, r1.2.1 || r2.2.1,
      match r2.2.2 with
      | some v => some v
      | none => r1.2.2)
end

/-- Embedding of `update_package_json_remove_snapshot` (release_sync.py,
lines 80-102) over a list of `(path, version field)` descriptors (the
version field is `none` when the file has no `version` key). Returns the
rewritten descriptors and the list of changed paths, in iteration
order. -/
def update_package_json_remove_snapshot (source_semver : String)
    (files : List (String × Option String)) :
    List (String × Option String) × List String :=
  match files with
  | [] => ([], [])
  | (name, field) :: rest =>
    let here : Option String :=
      match field with
      | none => none
      | some v => pkgStripField source_semver v
    let r := update_package_json_remove_snapshot source_semver rest
    match here with
    | some new_v => ((name, some new_v) :: r.1, name :: r.2)
    | none => ((name, field) :: r.1, r.2)

/-- Loop of `update_package_json_add_snapshot_bump` (release_sync.py,
lines 108-128): rewritten descriptors, changed paths, and the last
rewritten value (`new_version_global`). -/
def pkgBumpGo (source_semver bumped : String)
    (files : List (String × Option String)) :
    List (String × Option String) × List String × Option String :=
  match files with
  | [] => ([], [], none)
  | (name, field) :: rest =>
    let here : Option String :=
      match field with
      | none => none
      | some v => pkgBumpField source_semver bumped v
    let r := pkgBumpGo source_semver bumped rest
    match here with
    | some new_v =>
      ((name, some new_v) :: r.1, name :: r.2.1,
        match r.2.2 with
        | some w => some w
        | none => some new_v)
    | none => ((name, field) :: r.1, r.2.1, r.2.2)

/-- Embedding of `update_package_json_add_snapshot_bump` (release_sync.py,
lines 104-129): computes `bumped_semver = bump_minor_semver(source_semver)`
(a Python exception when the source semver does not parse, modelled as
`none`), runs the loop, and returns the changed files together with
`new_version_global or ("unknown-prefix-" + bumped_semver + "-snapshot")`. -/
def update_package_json_add_snapshot_bump (source_semver : String)
    (files : List (String × Option String)) :
    Option (List (String × Option String) × List String × String) :=
  match bump_minor_semver source_semver with
  | none => none
  | some bumped =>
    let r := pkgBumpGo source_semver bumped files
    some (r.1, r.2.1,
      match r.2.2 with
      | some v => v
      | none => "unknown-prefix-" ++ bumped ++ "-snapshot")

/-- Embedding of `update_pom_remove_snapshot` (release_sync.py, lines
137-183) over a list of `(path, document root)` descriptors: each tree is
walked, and a file is rewritten and reported exactly when some element
was modified. -/
def update_pom_remove_snapshot (source_semver : String)
    (files : List (String × XElem)) : List (String × XElem) × List String :=
  match files with
  | [] => ([], [])
  | (name, root) :: rest =>
    let h := stripElem source_semver false root
    let r := update_pom_remove_snapshot source_semver rest
    if h.2 then ((name, h.1) :: r.1, name :: r.2)
    else ((name, root) :: r.1, r.2)

/-- Loop of `update_pom_add_snapshot_bump` over the files, tracking the
last `new_version_global`. -/
def pomBumpGo (source_semver bumped : String) (files : List (String × XElem)) :
    List (String × XElem) × List String × Option String :=
  match files with
  | [] => ([], [], none)
  | (name, root) :: rest =>
    let h := bumpElem source_semver bumped false root
    let r := pomBumpGo source_semver bumped rest
    if h.2.1 then
      ((name, h.1) :: r.1, name :: r.2.1,
        match r.2.2 with
        | some w => some w
        | none => h.2.2)
    else ((name, root) :: r.1, r.2.1, r.2.2)

/-- Embedding of `update_pom_add_snapshot_bump` (release_sync.py, lines
185-235): returns the changed files and
`new_version_global or ("unknown-" + bumped_semver + "-SNAPSHOT")`. -/
def update_pom_add_snapshot_bump (source_semver : String)
    (files : List (String × XElem)) :
    Option (List (String × XElem) × List String × String) :=
  match bump_minor_semver source_semver with
  | none => none
  | some bumped =>
    let r := pomBumpGo source_semver bumped files
    some (r.1, r.2.1,
      match r.2.2 with
      | some v => v
      | none => "unknown-" ++ bumped ++ "-SNAPSHOT")

/-- Embedding of `xml_namespace_of` (release_sync.py, lines 133-135):
`re.match(r'\x7b(.+)\x7d', root_tag)` — the tag must start with `{`, and
the (greedy) group is everything up to the last `}`, which must be
non-empty. -/
def xml_namespace_of (root_tag : String) : Option String :=
  match root_tag.data with
  | '\x7b' :: rest =>
    match rest.reverse.dropWhile (fun c => c != '\x7d') with
    | '\x7d' :: revContent =>
      if revContent = [] then none else some (String.mk revContent.reverse)
    | _ => none
  | _ => none

example : xml_namespace_of "\x7bhttp://maven.apache.org/POM/4.0.0\x7dproject"
    = some "http://maven.apache.org/POM/4.0.0" := by decide
example : xml_namespace_of "project" = none := by decide
example : localTag "\x7bhttp://maven.apache.org/POM/4.0.0\x7dversion" = "version" := by decide
example : isSkipTag "\x7bhttp://maven.apache.org/POM/4.0.0\x7ddependency" = true := by decide

example : containsSnap "-SNAPSHOT" = true := by decide
example : containsSnap "-rc1" = false := by decide
example : pkgStripField "1.2.0" "1.2.0-snapshot" = some "1.2.0" := by decide
example : pkgStripField "1.0.0" "snapshot-2.0.0-rc1" = none := by decide
example : pomStripText "1.0.0" "snapshot-2.0.0-rc1" = some "snapshot-2.0.0" := by decide
example : pomStripText "1.0.0" "cba-1.0.0-SNAPSHOT" = some "cba-1.0.0" := by decide
example : pomStripText "1.0.0" "nightly-snapshot" = some "nightly" := by decide
example : pkgBumpField "1.2.0" "1.3.0" "9.9.9-beta" = none := by decide
example : pkgBumpField "1.2.0" "1.3.0" "1.2.0" = some "1.3.0-snapshot" := by decide
example : pomBumpText "1.0.0" "1.1.0" "special-snapshot" = some "special-1.1.0-SNAPSHOT" := by decide

example : split_version_str "1.2.3-snapshot" = some ("", "1.2.3", "-snapshot") := by decide
example : split_version_str "cba-1.0.0-SNAPSHOT" = some ("cba-", "1.0.0", "-SNAPSHOT") := by decide
example : split_version_str "nightly" = none := by decide
example : bump_minor_semver "1.2.0" = some "1.3.0" := by decide
example : bump_minor_semver "2.0.0" = some "2.1.0" := by decide
example : bump_minor_semver "1.3.5" = some "1.4.0" := by decide
example : extract_version_from_branch "release/2.0.0" = some "2.0.0" := by decide
example : extract_version_from_branch "hotfix/1.2.3" = none := by decide
example : extract_version_from_branch "feature/x" = none := by decide

/-- Models the namespace handling of `xml.etree.ElementTree` serialization
(Python standard library, used by `tree.write(...)` at lines 181 and 233):
when a document's elements live in a namespace for which no prefix has
been registered via `ET.register_namespace` — and the script registers
none — the serializer assigns a generated prefix (`ns0` for the first such
namespace) and emits qualified names with that prefix, e.g.
`<ns0:project xmlns:ns0="...">`. A tag with no namespace is emitted
verbatim. -/
def et_write_root_tag (root_tag : String) : String :=
  match xml_namespace_of root_tag with
  | some _ => "ns0:" ++ localTag root_tag
  | none => root_tag

/-- The external actions the orchestrator can attempt, in the order
`main` (release_sync.py, lines 248-373) issues them. Commit actions carry
their commit message. -/
inductive GitAct : Type where
  | gitConfigA
  | setRemoteA
  | fetchA
  | checkoutMainA
  | pullMainA
  | addMainA
  | commitMainA (msg : String)
  | pushMainA
  | createTagA (tag : String)
  | pushTagA (tag : String)
  | createReleaseA (tag : String)
  | deleteSyncA
  | checkoutSyncA (branch : String)
  | mergeMainA
  | addSyncA
  | commitSyncA (msg : String)
  | pushSyncA
  | createPRA
  | mergePRA
deriving DecidableEq

/-- The distinguishable terminating conditions of `main`: the three
`sys.exit(1)` input errors (lines 269-280), an uncaught
`CalledProcessError` from a specific command, the merge-conflict and
PR-merge `sys.exit(1)` paths, and a Python `ValueError` from
`bump_minor_semver`. -/
inductive RunErr : Type where
  | inputNoBranch
  | inputBadBranch
  | inputNoToken
  | procErr (a : GitAct)
  | mergeConflictExit
  | prMergeExit
  | bumpParseError
deriving DecidableEq

/-- The environment of one run: the inputs `main` reads and the outcomes
of the external commands it invokes. `pkgFiles` / `pomFiles` are the
descriptor contents on the trunk line; `devPkgFiles` / `devPomFiles` are
the contents the snapshot pass sees on the sync branch after the merge. -/
structure RunEnv : Type where
  sourceBranch : Option String
  token : Option String
  pkgFiles : List (String × Option String)
  pomFiles : List (String × XElem)
  tagExistsLocally : Bool
  releaseExists : Bool
  mergeConflict : Bool
  devPkgFiles : List (String × Option String)
  devPomFiles : List (String × XElem)
  commitsAhead : Nat
  prMergeFails : Bool
deriving DecidableEq

/-- Embedding of line 352,
`new_version_display = new_pkg_version if new_pkg_version else new_pom_version`
(Python truthiness of a string is non-emptiness). -/
def new_version_display (new_pkg_version new_pom_version : String) : String :=
  if new_pkg_version ≠ "" then new_pkg_version else new_pom_version

/-- Embedding of `main` (release_sync.py, lines 248-373) as a function
from the run environment to the list of attempted external actions and
the terminating error, if any (`none` is a zero exit).

Control flow follows the source: the three input checks exit before any
action; the strip passes commit to main only when they changed a file;
`git tag -a` failing because the tag exists locally is caught and the run
continues (so `tagExistsLocally` does not influence the outcome); the tag
is pushed; `gh release create` failing (release already exists) raises an
uncaught `CalledProcessError`; the sync branch is created and `origin/main`
merged (a conflict exits); the bump passes run; and the branch is pushed
and a PR created and merged when there are commits ahead or changed
files. -/
def mainRun (env : RunEnv) : List GitAct × Option RunErr :=
  match env.sourceBranch with
  | none => ([], some RunErr.inputNoBranch)
  | some b =>
    match extract_version_from_branch b with
    | none => ([], some RunErr.inputBadBranch)
    | some source_semver =>
      match env.token with
      | none => ([], some RunErr.inputNoToken)
      | some _ =>
        let pre := [GitAct.gitConfigA, GitAct.setRemoteA, GitAct.fetchA,
          GitAct.checkoutMainA, GitAct.pullMainA]
        let rp := update_package_json_remove_snapshot source_semver env.pkgFiles
        let rm := update_pom_remove_snapshot source_semver env.pomFiles
        let commitMain : List GitAct :=
          if rp.2 = [] ∧ rm.2 = [] then []
          else [GitAct.addMainA,
            GitAct.commitMainA ("chore(release): remove -snapshot for v" ++ source_semver),
            GitAct.pushMainA]
        let tag := "v" ++ source_semver
        let _tagCreateFailed := env.tagExistsLocally
        let t1 := pre ++ commitMain ++
          [GitAct.createTagA tag, GitAct.pushTagA tag, GitAct.createReleaseA tag]
        if env.releaseExists then
          (t1, some (RunErr.procErr (GitAct.createReleaseA tag)))
        else
          let syncBranch := "release-sync/" ++ source_semver
          let t2 := t1 ++ [GitAct.fetchA, GitAct.deleteSyncA,
            GitAct.checkoutSyncA syncBranch, GitAct.mergeMainA]
          if env.mergeConflict then (t2, some RunErr.mergeConflictExit)
          else
            match update_package_json_add_snapshot_bump source_semver env.devPkgFiles,
                update_pom_add_snapshot_bump source_semver env.devPomFiles with
            | some bp, some bm =>
              let all_changed := bp.2.1 ++ bm.2.1
              if env.commitsAhead > 0 ∨ all_changed ≠ [] then
                let commitSync : List GitAct :=
                  if all_changed = [] then []
                  else [GitAct.addSyncA,
                    GitAct.commitSyncA ("chore: bump dev version to " ++
                      new_version_display bp.2.2 bm.2.2)]
                let t3 := t2 ++ commitSync ++
                  [GitAct.pushSyncA, GitAct.createPRA, GitAct.mergePRA]
                if env.prMergeFails then (t3, some RunErr.prMergeExit)
                else (t3, none)
              else (t2, none)
            | _, _ => (t2, some RunErr.bumpParseError)

/-- Head-is-a-digit test used to state maximality of greedy digit runs. -/
def headDig : List Char → Bool
  | [] => false
  | c :: _ => isDig c

/-- The two components of `takeDigits` reassemble the input. -/
theorem takeDigits_append_eq (l : List Char) :
    (takeDigits l).1 ++ (takeDigits l).2 = l := by
  induction l with
  | nil => rfl
  | cons c cs ih =>
    by_cases h : isDig c
    · simp [takeDigits, h, ih]
    · simp [takeDigits, h]

/-- The run returned by `takeDigits` is all digits. -/
theorem takeDigits_all_dig (l : List Char) :
    ((takeDigits l).1).all isDig = true := by
  induction l with
  | nil => rfl
  | cons c cs ih =>
    by_cases h : isDig c
    · simp only [takeDigits, h, if_pos, List.all_cons, Bool.and_eq_true]
      exact ⟨trivial, ih⟩
    · simp [takeDigits, h]

/-- The rest returned by `takeDigits` does not start with a digit. -/
theorem takeDigits_rest_not_dig (l : List Char) :
    headDig (takeDigits l).2 = false := by
  induction l with
  | nil => rfl
  | cons c cs ih =>
    by_cases h : isDig c
    · simp [takeDigits, h]; exact ih
    · simp only [takeDigits, h]
      simp [headDig, h]

/-- `takeDigits` consumes a leading all-digit block and continues. -/
theorem takeDigits_append_digits (d s : List Char) (hd : d.all isDig = true) :
    takeDigits (d ++ s) = (d ++ (takeDigits s).1, (takeDigits s).2) := by
  induction d with
  | nil => simp
  | cons c d ih =>
    simp only [List.all_cons, Bool.and_eq_true] at hd
    simp [takeDigits, hd.1, ih hd.2]

/-- `takeDigits` on an all-digit block followed by a non-digit boundary. -/
theorem takeDigits_exact (d r : List Char) (hd : d.all isDig = true)
    (hr : headDig r = false) : takeDigits (d ++ r) = (d, r) := by
  rw [takeDigits_append_digits d r hd]
  cases r with
  | nil => simp [takeDigits]
  | cons c cs =>
    simp only [headDig] at hr
    simp [takeDigits, hr]

/-- Structure of a successful `matchSemverAt`: the match is three
non-empty digit runs separated by dots, the input is match plus rest, and
the rest does not begin with a digit (greedy maximality). -/
theorem matchSemverAt_sound {l m rest : List Char}
    (hm : matchSemverAt l = some (m, rest)) :
    ∃ d1 d2 d3, d1 ≠ [] ∧ d2 ≠ [] ∧ d3 ≠ [] ∧
      d1.all isDig = true ∧ d2.all isDig = true ∧ d3.all isDig = true ∧
      m = d1 ++ '.' :: d2 ++ '.' :: d3 ∧ l = m ++ rest ∧ headDig rest = false := by
  simp only [matchSemverAt] at hm
  repeat' split at hm
  all_goals simp at hm
  rename_i h1 u1 c1 r2 heq1 hc1 h2 u2 c2 r4 heq2 hc2 h3
  subst hc1
  subst hc2
  obtain ⟨hm1, hm2⟩ := hm
  refine ⟨(takeDigits l).1, (takeDigits r2).1, (takeDigits r4).1, h1, h2, h3,
    takeDigits_all_dig l, takeDigits_all_dig r2, takeDigits_all_dig r4, ?_, ?_, ?_⟩
  · rw [← hm1]
    simp
  · have e1 := takeDigits_append_eq l
    rw [heq1] at e1
    have e2 := takeDigits_append_eq r2
    rw [heq2] at e2
    have e3 := takeDigits_append_eq r4
    rw [hm2] at e3
    rw [← e2] at e1
    rw [← e3] at e1
    have e4 : l = (takeDigits l).1 ++ '.' :: ((takeDigits r2).1 ++ '.' :: ((takeDigits r4).1 ++ rest)) := e1.symm
    rw [e4, ← hm1]
    simp
  · rw [← hm2]
    exact takeDigits_rest_not_dig r4

/-- Construction: three non-empty digit runs with dots, followed by a
non-digit boundary, match exactly as expected. -/
theorem matchSemverAt_build (d1 d2 d3 rest : List Char)
    (h1 : d1 ≠ []) (h2 : d2 ≠ []) (h3 : d3 ≠ [])
    (a1 : d1.all isDig = true) (a2 : d2.all isDig = true) (a3 : d3.all isDig = true)
    (hr : headDig rest = false) :
    matchSemverAt (d1 ++ '.' :: d2 ++ '.' :: d3 ++ rest)
      = some (d1 ++ '.' :: d2 ++ '.' :: d3, rest) := by
  have t1 : takeDigits (d1 ++ '.' :: (d2 ++ '.' :: (d3 ++ rest)))
      = (d1, '.' :: (d2 ++ '.' :: (d3 ++ rest))) :=
    takeDigits_exact d1 _ a1 (by simp [headDig, isDig])
  have t2 : takeDigits (d2 ++ '.' :: (d3 ++ rest)) = (d2, '.' :: (d3 ++ rest)) :=
    takeDigits_exact d2 _ a2 (by simp [headDig, isDig])
  have t3 : takeDigits (d3 ++ rest) = (d3, rest) := takeDigits_exact d3 _ a3 hr
  have shape : d1 ++ '.' :: d2 ++ '.' :: d3 ++ rest
      = d1 ++ '.' :: (d2 ++ '.' :: (d3 ++ rest)) := by simp
  rw [shape]
  simp only [matchSemverAt, t1, t2, t3]
  simp [h1, h2, h3]

/-- A match at a position survives appending a tail to the input. -/
theorem matchSemverAt_extend {x : List Char} (s : List Char)
    (hx : (matchSemverAt x).isSome = true) :
    (matchSemverAt (x ++ s)).isSome = true := by
  rcases hmx : matchSemverAt x with _ | ⟨m, rest⟩
  · rw [hmx] at hx; simp at hx
  obtain ⟨d1, d2, d3, h1, h2, h3, a1, a2, a3, hm, hl, hr⟩ := matchSemverAt_sound hmx
  subst hm
  rw [hl]
  cases rest with
  | nil =>
    have t3 : takeDigits (d3 ++ s) = (d3 ++ (takeDigits s).1, (takeDigits s).2) :=
      takeDigits_append_digits d3 s a3
    have t1 : takeDigits (d1 ++ '.' :: (d2 ++ '.' :: (d3 ++ s)))
        = (d1, '.' :: (d2 ++ '.' :: (d3 ++ s))) :=
      takeDigits_exact d1 _ a1 (by simp [headDig, isDig])
    have t2 : takeDigits (d2 ++ '.' :: (d3 ++ s)) = (d2, '.' :: (d3 ++ s)) :=
      takeDigits_exact d2 _ a2 (by simp [headDig, isDig])
    have shape : (d1 ++ '.' :: d2 ++ '.' :: d3 ++ []) ++ s
        = d1 ++ '.' :: (d2 ++ '.' :: (d3 ++ s)) := by simp
    rw [shape]
    simp only [matchSemverAt, t1, t2, t3]
    have h3' : d3 ++ (takeDigits s).1 ≠ [] := by
      cases d3 with
      | nil => exact absurd rfl h3
      | cons a b => simp
    simp [h1, h2, h3']
  | cons c rs =>
    have hrc : isDig c = false := by simpa [headDig] using hr
    have shape : (d1 ++ '.' :: d2 ++ '.' :: d3 ++ c :: rs) ++ s
        = d1 ++ '.' :: d2 ++ '.' :: d3 ++ (c :: (rs ++ s)) := by simp
    rw [shape, matchSemverAt_build d1 d2 d3 (c :: (rs ++ s)) h1 h2 h3 a1 a2 a3
      (by simp [headDig, hrc])]
    simp

/-- Soundness of the scan: a successful `findAux` splits the input, the
match succeeds at its position, and no earlier position matches. -/
theorem findAux_sound {l p m r : List Char} (hf : findAux l = some (p, m, r)) :
    l = p ++ m ++ r ∧ matchSemverAt (m ++ r) = some (m, r) ∧
      ∀ i < p.length, matchSemverAt (l.drop i) = none := by
  induction l generalizing p with
  | nil => simp [findAux] at hf
  | cons c cs ih =>
    rw [findAux] at hf
    rcases hmx : matchSemverAt (c :: cs) with _ | ⟨m0, rest0⟩
    · rw [hmx] at hf
      simp only [] at hf
      rcases hf2 : findAux cs with _ | ⟨⟨p', m', r'⟩⟩
      · rw [hf2] at hf; simp at hf
      · rw [hf2] at hf
        simp only [Option.some.injEq, Prod.mk.injEq] at hf
        obtain ⟨hp, hm', hr'⟩ := hf
        subst hm' hr'
        obtain ⟨e1, e2, e3⟩ := ih hf2
        subst hp
        refine ⟨by simp [← List.append_assoc, e1], e2, ?_⟩
        intro i hi
        cases i with
        | zero => simpa using hmx
        | succ j =>
          simp only [List.drop_succ_cons]
          exact e3 j (by simpa using Nat.lt_of_succ_lt_succ hi)
    · rw [hmx] at hf
      simp only [Option.some.injEq, Prod.mk.injEq] at hf
      obtain ⟨hp, hm', hr'⟩ := hf
      subst hp
      subst hm'
      subst hr'
      obtain ⟨d1, d2, d3, _, _, _, _, _, _, _, hl, _⟩ := matchSemverAt_sound hmx
      refine ⟨by simpa using hl.symm ▸ rfl, ?_, by intro i hi; simp at hi⟩
      rw [← hl]
      exact hmx

/-- A failed scan means no position matches. -/
theorem findAux_none {l : List Char} (hf : findAux l = none) :
    ∀ i, matchSemverAt (l.drop i) = none := by
  induction l with
  | nil =>
    intro i
    simp only [List.drop_nil]
    decide
  | cons c cs ih =>
    rw [findAux] at hf
    rcases hmx : matchSemverAt (c :: cs) with _ | ⟨m0, rest0⟩
    · rw [hmx] at hf
      simp only [] at hf
      rcases hf2 : findAux cs with _ | ⟨⟨p', m', r'⟩⟩
      · intro i
        cases i with
        | zero => simpa using hmx
        | succ j => simpa using ih hf2 j
      · rw [hf2] at hf; simp at hf
    · rw [hmx] at hf; simp at hf

/-- Building the scan result when the earlier positions are known not to
match. -/
theorem findAux_build (p m r : List Char) (hm : matchSemverAt (m ++ r) = some (m, r))
    (hnone : ∀ i < p.length, matchSemverAt ((p ++ m ++ r).drop i) = none) :
    findAux (p ++ m ++ r) = some (p, m, r) := by
  induction p with
  | nil =>
    obtain ⟨d1, _, _, h1, _, _, _, _, _, hms, _, _⟩ := matchSemverAt_sound hm
    have hmne : m ≠ [] := by
      subst hms
      cases d1 with
      | nil => exact absurd rfl h1
      | cons a b => simp
    cases m with
    | nil => exact absurd rfl hmne
    | cons mc ms =>
      have e : ([] : List Char) ++ (mc :: ms) ++ r = mc :: (ms ++ r) := by simp
      rw [e, findAux]
      have e2 : mc :: (ms ++ r) = (mc :: ms) ++ r := by simp
      rw [e2, hm]
  | cons c p' ih =>
    have h0 : matchSemverAt (c :: (p' ++ m ++ r)) = none := by
      have := hnone 0 (by simp)
      simpa using this
    have hrest : findAux (p' ++ m ++ r) = some (p', m, r) := by
      apply ih
      intro i hi
      have := hnone (i + 1) (by simpa using Nat.succ_lt_succ hi)
      simpa using this
    have e : (c :: p') ++ m ++ r = c :: (p' ++ m ++ r) := by simp
    rw [e, findAux, h0]
    simp only []
    rw [hrest]

/-- Dropping within the left part of an append. -/
theorem dropAppendLeft {α : Type} (a b : List α) (i : Nat) (h : i ≤ a.length) :
    (a ++ b).drop i = a.drop i ++ b := by
  induction a generalizing i with
  | nil =>
    simp at h
    subst h
    simp
  | cons x xs ih =>
    cases i with
    | zero => simp
    | succ j => simpa using ih j (by simpa using h)

/-- After one strip (removing the suffix), the scan finds the very same
prefix and semver again, with an empty suffix. -/
theorem findAux_again {p m r : List Char} (h : findAux (p ++ m ++ r) = some (p, m, r)) :
    findAux (p ++ m) = some (p, m, []) := by
  obtain ⟨_, hm, hnone⟩ := findAux_sound h
  obtain ⟨d1, d2, d3, h1, h2, h3, a1, a2, a3, hms, hl, hr⟩ := matchSemverAt_sound hm
  have hmm : matchSemverAt (m ++ []) = some (m, []) := by
    have hb := matchSemverAt_build d1 d2 d3 [] h1 h2 h3 a1 a2 a3 (by simp [headDig])
    rw [hms]
    exact hb
  have key : ∀ i < p.length, matchSemverAt ((p ++ m ++ []).drop i) = none := by
    intro i hi
    rcases hsome : matchSemverAt ((p ++ m ++ []).drop i) with _ | pr
    · exact hsome
    exfalso
    have e0 : p ++ m ++ [] = p ++ m := by simp
    rw [e0] at hsome
    have hle : i ≤ (p ++ m).length := by
      simp only [List.length_append]
      omega
    have hiS : (matchSemverAt ((p ++ m).drop i)).isSome = true := by
      rw [hsome]; rfl
    have hext := matchSemverAt_extend r hiS
    rw [← dropAppendLeft (p ++ m) r i hle] at hext
    rw [hnone i hi] at hext
    simp at hext
  have hb := findAux_build p m [] hmm key
  simpa using hb

/-- The data of an appended string. -/
theorem strData_append (a b : String) : (a ++ b).data = a.data ++ b.data := by
  cases a
  cases b
  rfl

/-- Bridge between the `String`-level `split_version_str` and the
character-level scan. -/
theorem split_version_str_eq {v p sv suf : String} :
    split_version_str v = some (p, sv, suf) ↔
      findAux v.data = some (p.data, sv.data, suf.data) := by
  constructor
  · intro h
    unfold split_version_str at h
    rcases hf : findAux v.data with _ | ⟨⟨a, b, c⟩⟩
    · rw [hf] at h
      exact absurd h (by simp)
    · rw [hf] at h
      simp only [Option.some.injEq, Prod.mk.injEq] at h
      obtain ⟨h1, h2, h3⟩ := h
      subst h1
      subst h2
      subst h3
      rfl
  · intro h
    unfold split_version_str
    rw [h]

/-- A failed `split_version_str` is a failed scan. -/
theorem split_version_str_none {v : String} :
    split_version_str v = none ↔ findAux v.data = none := by
  unfold split_version_str
  rcases hf : findAux v.data with _ | ⟨⟨a, b, c⟩⟩
  · simp
  · simp

/-- Two strings with equal data are equal. -/
theorem strDataInj {a b : String} (h : a.data = b.data) : a = b := by
  cases a
  cases b
  simp only at h
  rw [h]

/-- Unfolding equation for the token search. -/
theorem containsSnapL_cons (c : Char) (cs : List Char) :
    containsSnapL (c :: cs) = (startsSnap (c :: cs) || containsSnapL cs) := rfl

/-- The removal scan never lengthens the text. -/
theorem removeSnapAux_length_le (fuel : Nat) :
    ∀ l : List Char, l.length ≤ fuel → (removeSnapAux fuel l).length ≤ l.length := by
  induction fuel with
  | zero => intro l h; simp [removeSnapAux]
  | succ f ih =>
    intro l h
    cases l with
    | nil => simp [removeSnapAux]
    | cons c cs =>
      simp only [removeSnapAux]
      simp only [List.length_cons] at h
      have hcs : cs.length ≤ f := Nat.le_of_succ_le_succ h
      split
      · have := ih (cs.drop 8) (by simpa using Nat.le_trans (Nat.sub_le _ _) hcs)
        simp only [List.length_drop] at this
        simp only [List.length_cons]
        omega
      · split
        · have := ih (cs.drop 7) (by simpa using Nat.le_trans (Nat.sub_le _ _) hcs)
          simp only [List.length_drop] at this
          simp only [List.length_cons]
          omega
        · have := ih cs hcs
          simp only [List.length_cons]
          omega

/-- When the token occurs, the removal scan strictly shortens the text. -/
theorem removeSnapAux_length_lt (fuel : Nat) :
    ∀ l : List Char, l.length ≤ fuel → containsSnapL l = true →
      (removeSnapAux fuel l).length < l.length := by
  induction fuel with
  | zero =>
    intro l h hc
    cases l with
    | nil => simp [containsSnapL] at hc
    | cons c cs => simp at h
  | succ f ih =>
    intro l h hc
    cases l with
    | nil => simp [containsSnapL] at hc
    | cons c cs =>
      simp only [removeSnapAux]
      simp only [List.length_cons] at h
      have hcs : cs.length ≤ f := Nat.le_of_succ_le_succ h
      split
      · have := removeSnapAux_length_le f (cs.drop 8)
          (by simpa using Nat.le_trans (Nat.sub_le _ _) hcs)
        simp only [List.length_drop] at this
        simp only [List.length_cons]
        omega
      · split
        · have := removeSnapAux_length_le f (cs.drop 7)
            (by simpa using Nat.le_trans (Nat.sub_le _ _) hcs)
          simp only [List.length_drop] at this
          simp only [List.length_cons]
          omega
        · rename_i hno1 hno2
          have hccs : containsSnapL cs = true := by
            simp only [containsSnapL_cons, Bool.or_eq_true] at hc
            rcases hc with h2 | h2
            · exact absurd h2 hno2
            · exact h2
          have := ih cs hcs hccs
          simp only [List.length_cons]
          omega

/-- The removal scan strictly shortens a text containing the token. -/
theorem removeSnapL_length_lt {l : List Char} (hc : containsSnapL l = true) :
    (removeSnapL l).length < l.length :=
  removeSnapAux_length_lt l.length l (Nat.le_refl _) hc

/-- When the token occurs, the substitution scan inserts the replacement. -/
theorem subSnapAux_decomp (repl : List Char) (fuel : Nat) :
    ∀ l : List Char, l.length ≤ fuel → containsSnapL l = true →
      ∃ a b, subSnapAux repl fuel l = a ++ repl ++ b := by
  induction fuel with
  | zero =>
    intro l h hc
    cases l with
    | nil => simp [containsSnapL] at hc
    | cons c cs => simp at h
  | succ f ih =>
    intro l h hc
    cases l with
    | nil => simp [containsSnapL] at hc
    | cons c cs =>
      simp only [subSnapAux]
      split
      · exact ⟨[], subSnapAux repl f (cs.drop 7), by simp⟩
      · rename_i hno
        have hcs : cs.length ≤ f := Nat.le_of_succ_le_succ (by simpa using h)
        have hccs : containsSnapL cs = true := by
          simp only [containsSnapL_cons, Bool.or_eq_true] at hc
          rcases hc with h2 | h2
          · exact absurd h2 hno
          · exact h2
        obtain ⟨a, b, hab⟩ := ih cs hcs hccs
        exact ⟨c :: a, b, by simp [hab]⟩

/-- Facts recoverable from a successful decomposition: the three parts
reassemble the input, and the semver part (hence the input) is non-empty. -/
theorem split_some_facts {v p sv suf : String}
    (hs : split_version_str v = some (p, sv, suf)) :
    v = p ++ sv ++ suf ∧ sv ≠ "" ∧ v ≠ "" := by
  have hf := split_version_str_eq.mp hs
  obtain ⟨he, hm, _⟩ := findAux_sound hf
  obtain ⟨d1, _, _, h1, _, _, _, _, _, hms, _, _⟩ := matchSemverAt_sound hm
  have hsv : sv.data ≠ [] := by
    rw [hms]
    cases d1 with
    | nil => exact absurd rfl h1
    | cons a b => simp
  have hv : v = p ++ sv ++ suf := by
    apply strDataInj
    rw [strData_append, strData_append]
    exact he
  refine ⟨hv, ?_, ?_⟩
  · intro h
    exact hsv (by rw [h])
  · intro h
    rw [h] at he
    have : ([] : List Char) = p.data ++ sv.data ++ suf.data := he
    rcases List.append_eq_nil.mp (List.append_eq_nil.mp this.symm).1 with ⟨_, h2⟩
    exact hsv h2

/-- Characterization of the `package.json` strip loop body: it rewrites
exactly a non-empty, decomposable field whose semver equals the source
semver or whose suffix contains the marker, and only when removing the
suffix changes the text. -/
theorem pkgStripField_eq_some {src v w : String} :
    pkgStripField src v = some w ↔
      v ≠ "" ∧ ∃ p sv suf, split_version_str v = some (p, sv, suf) ∧
        (sv = src ∨ containsSnap suf = true) ∧ w = p ++ sv ∧ w ≠ v := by
  constructor
  · intro h
    simp only [pkgStripField] at h
    by_cases hv : v = ""
    · rw [if_pos hv] at h; exact absurd h (by simp)
    rw [if_neg hv] at h
    rcases hs : split_version_str v with _ | ⟨⟨p, sv, suf⟩⟩
    · rw [hs] at h; exact absurd h (by simp)
    rw [hs] at h
    simp only [] at h
    by_cases hc : sv = src ∨ containsSnap suf = true
    · rw [if_pos hc] at h
      by_cases hg : p ++ sv ≠ v
      · rw [if_pos hg] at h
        simp only [Option.some.injEq] at h
        refine ⟨hv, p, sv, suf, rfl, hc, h.symm, ?_⟩
        rw [← h]
        exact hg
      · rw [if_neg hg] at h; exact absurd h (by simp)
    · rw [if_neg hc] at h; exact absurd h (by simp)
  · rintro ⟨hv, p, sv, suf, hs, hc, hw, hne⟩
    simp only [pkgStripField]
    rw [if_neg hv, hs]
    simp only []
    rw [if_pos hc, if_pos (by rw [← hw]; exact hne)]
    rw [hw]

/-- Characterization of the `package.json` bump loop body: same
candidacy condition as the strip pass, rewriting to
`prefix + bumped + "-snapshot"`. -/
theorem pkgBumpField_eq_some {src bumped v w : String} :
    pkgBumpField src bumped v = some w ↔
      v ≠ "" ∧ ∃ p sv suf, split_version_str v = some (p, sv, suf) ∧
        (sv = src ∨ containsSnap suf = true) ∧
        w = p ++ bumped ++ "-snapshot" ∧ w ≠ v := by
  constructor
  · intro h
    simp only [pkgBumpField] at h
    by_cases hv : v = ""
    · rw [if_pos hv] at h; exact absurd h (by simp)
    rw [if_neg hv] at h
    rcases hs : split_version_str v with _ | ⟨⟨p, sv, suf⟩⟩
    · rw [hs] at h; exact absurd h (by simp)
    rw [hs] at h
    simp only [] at h
    by_cases hc : sv = src ∨ containsSnap suf = true
    · rw [if_pos hc] at h
      by_cases hg : p ++ bumped ++ "-snapshot" ≠ v
      · rw [if_pos hg] at h
        simp only [Option.some.injEq] at h
        refine ⟨hv, p, sv, suf, rfl, hc, h.symm, ?_⟩
        rw [← h]
        exact hg
      · rw [if_neg hg] at h; exact absurd h (by simp)
    · rw [if_neg hc] at h; exact absurd h (by simp)
  · rintro ⟨hv, p, sv, suf, hs, hc, hw, hne⟩
    simp only [pkgBumpField]
    rw [if_neg hv, hs]
    simp only []
    rw [if_pos hc, if_pos (by rw [← hw]; exact hne)]
    rw [hw]

/-- Characterization of the pom strip element transform on decomposable
text: the extra third disjunct (`snapshot` anywhere in the text) is part
of the rewrite condition. -/
theorem pomStripText_eq_some_of_split {src raw w p sv suf : String}
    (hs : split_version_str (pyStrip raw) = some (p, sv, suf)) :
    pomStripText src raw = some w ↔
      (sv = src ∨ containsSnap suf = true ∨ containsSnap (pyStrip raw) = true) ∧
      w = p ++ sv ∧ w ≠ pyStrip raw := by
  have hne : pyStrip raw ≠ "" := (split_some_facts hs).2.2
  constructor
  · intro h
    simp only [pomStripText] at h
    rw [if_neg hne, hs] at h
    simp only [] at h
    by_cases hc : sv = src ∨ containsSnap suf = true ∨ containsSnap (pyStrip raw) = true
    · rw [if_pos hc] at h
      by_cases hg : p ++ sv ≠ pyStrip raw
      · rw [if_pos hg] at h
        simp only [Option.some.injEq] at h
        exact ⟨hc, h.symm, by rw [← h]; exact hg⟩
      · rw [if_neg hg] at h; exact absurd h (by simp)
    · rw [if_neg hc] at h; exact absurd h (by simp)
  · rintro ⟨hc, hw, hg⟩
    simp only [pomStripText]
    rw [if_neg hne, hs]
    simp only []
    rw [if_pos hc, if_pos (by rw [← hw]; exact hg), hw]

/-- Characterization of the pom strip element transform on
non-decomposable text: the textual token removal, applied whenever the
token occurs, with no same-text guard. -/
theorem pomStripText_eq_some_of_none {src raw w : String}
    (hs : split_version_str (pyStrip raw) = none) :
    pomStripText src raw = some w ↔
      pyStrip raw ≠ "" ∧ containsSnap (pyStrip raw) = true ∧
        w = String.mk (removeSnapL (pyStrip raw).data) := by
  constructor
  · intro h
    simp only [pomStripText] at h
    by_cases hne : pyStrip raw = ""
    · rw [if_pos hne] at h; exact absurd h (by simp)
    rw [if_neg hne, hs] at h
    simp only [] at h
    by_cases hc : containsSnap (pyStrip raw) = true
    · rw [if_pos hc] at h
      simp only [Option.some.injEq] at h
      exact ⟨hne, hc, h.symm⟩
    · rw [if_neg hc] at h; exact absurd h (by simp)
  · rintro ⟨hne, hc, hw⟩
    simp only [pomStripText]
    rw [if_neg hne, hs]
    simp only []
    rw [if_pos hc, hw]

/-- Analogue of `pomStripText_eq_some_of_split` for the bump transform:
no third disjunct here. -/
theorem pomBumpText_eq_some_of_split {src bumped raw w p sv suf : String}
    (hs : split_version_str (pyStrip raw) = some (p, sv, suf)) :
    pomBumpText src bumped raw = some w ↔
      (sv = src ∨ containsSnap suf = true) ∧
      w = p ++ bumped ++ "-SNAPSHOT" ∧ w ≠ pyStrip raw := by
  have hne : pyStrip raw ≠ "" := (split_some_facts hs).2.2
  constructor
  · intro h
    simp only [pomBumpText] at h
    rw [if_neg hne, hs] at h
    simp only [] at h
    by_cases hc : sv = src ∨ containsSnap suf = true
    · rw [if_pos hc] at h
      by_cases hg : p ++ bumped ++ "-SNAPSHOT" ≠ pyStrip raw
      · rw [if_pos hg] at h
        simp only [Option.some.injEq] at h
        exact ⟨hc, h.symm, by rw [← h]; exact hg⟩
      · rw [if_neg hg] at h; exact absurd h (by simp)
    · rw [if_neg hc] at h; exact absurd h (by simp)
  · rintro ⟨hc, hw, hg⟩
    simp only [pomBumpText]
    rw [if_neg hne, hs]
    simp only []
    rw [if_pos hc, if_pos (by rw [← hw]; exact hg), hw]

/-- Analogue of `pomStripText_eq_some_of_none` for the bump transform. -/
theorem pomBumpText_eq_some_of_none {src bumped raw w : String}
    (hs : split_version_str (pyStrip raw) = none) :
    pomBumpText src bumped raw = some w ↔
      pyStrip raw ≠ "" ∧ containsSnap (pyStrip raw) = true ∧
        w = String.mk (subSnapL
          (bumped.data ++ ('-' :: ['S', 'N', 'A', 'P', 'S', 'H', 'O', 'T']))
          (pyStrip raw).data) := by
  constructor
  · intro h
    simp only [pomBumpText] at h
    by_cases hne : pyStrip raw = ""
    · rw [if_pos hne] at h; exact absurd h (by simp)
    rw [if_neg hne, hs] at h
    simp only [] at h
    by_cases hc : containsSnap (pyStrip raw) = true
    · rw [if_pos hc] at h
      simp only [Option.some.injEq] at h
      exact ⟨hne, hc, h.symm⟩
    · rw [if_neg hc] at h; exact absurd h (by simp)
  · rintro ⟨hne, hc, hw⟩
    simp only [pomBumpText]
    rw [if_neg hne, hs]
    simp only []
    rw [if_pos hc, hw]

/-- The strip loop body never reports an unchanged `package.json` field. -/
theorem pkgStripField_some_ne {src v w : String}
    (h : pkgStripField src v = some w) : w ≠ v := by
  obtain ⟨_, p, sv, suf, _, _, _, hne⟩ := pkgStripField_eq_some.mp h
  exact hne

/-- The bump loop body never reports an unchanged `package.json` field. -/
theorem pkgBumpField_some_ne {src bumped v w : String}
    (h : pkgBumpField src bumped v = some w) : w ≠ v := by
  obtain ⟨_, p, sv, suf, _, _, _, hne⟩ := pkgBumpField_eq_some.mp h
  exact hne

/-- The pom strip element transform never reports an unchanged element
text: either the same-text guard fired, or the textual token removal
strictly shortened the text. -/
theorem pomStripText_some_ne {src raw w : String}
    (h : pomStripText src raw = some w) : w ≠ pyStrip raw := by
  rcases hs : split_version_str (pyStrip raw) with _ | ⟨⟨p, sv, suf⟩⟩
  · obtain ⟨_, hc, hw⟩ := (pomStripText_eq_some_of_none hs).mp h
    intro heq
    have hlen := removeSnapL_length_lt hc
    rw [hw] at heq
    have : (String.mk (removeSnapL (pyStrip raw).data)).data = (pyStrip raw).data := by
      rw [heq]
    simp only [] at this
    rw [this] at hlen
    omega
  · obtain ⟨_, _, hne⟩ := (pomStripText_eq_some_of_split hs).mp h
    exact hne

/-- Stripping a field twice changes nothing the second time: the general
idempotence of the `package.json` strip loop body. -/
theorem pkgStripField_again {src v w : String}
    (h : pkgStripField src v = some w) : pkgStripField src w = none := by
  obtain ⟨hv, p, sv, suf, hs, hc, hw, hne⟩ := pkgStripField_eq_some.mp h
  have hf := split_version_str_eq.mp hs
  obtain ⟨he, _, _⟩ := findAux_sound hf
  rw [he] at hf
  have hf2 := findAux_again hf
  have hsw : split_version_str w = some (p, sv, "") := by
    apply split_version_str_eq.mpr
    have : w.data = p.data ++ sv.data := by rw [hw, strData_append]
    rw [this]
    exact hf2
  obtain ⟨_, _, hwne⟩ := split_some_facts hsw
  simp only [pkgStripField]
  rw [if_neg hwne, hsw]
  simp only []
  by_cases hc2 : sv = src ∨ containsSnap "" = true
  · rw [if_pos hc2, if_neg (by simp [hw])]
  · rw [if_neg hc2]

/-- A descriptor already at the target semver (semver equals the source,
empty suffix) with no marker anywhere is untouched by both strip
transforms. -/
theorem strip_at_target_none {src v p : String}
    (hs : split_version_str v = some (p, src, ""))
    (_hm : containsSnap v = false) (hstr : pyStrip v = v) :
    pkgStripField src v = none ∧ pomStripText src v = none := by
  obtain ⟨hv, _, hvne⟩ := split_some_facts hs
  have hid : p ++ src ++ "" = p ++ src := strDataInj (by rw [strData_append]; simp)
  have hveq : v = p ++ src := hv.trans hid
  constructor
  · simp only [pkgStripField]
    rw [if_neg hvne, hs]
    simp only []
    simp [hveq]
  · simp only [pomStripText]
    rw [hstr, if_neg hvne, hs]
    simp only []
    simp [hveq]

/-!
Once some proper ancestor carries an excluded tag, the walks change
nothing below it: `version` elements are skipped and other elements are
never rewritten anyway.
-/
mutual
theorem stripElem_skip (src : String) : ∀ e : XElem, stripElem src true e = (e, false)
  | .mk tag text kids => by
    have ih := stripElems_skip src kids
    simp [stripElem, ih]
theorem stripElems_skip (src : String) : ∀ es : XList, stripElems src true es = (es, false)
  | .nil => by simp [stripElems]
  | .cons e es => by
    have ih1 := stripElem_skip src e
    have ih2 := stripElems_skip src es
    simp [stripElems, ih1, ih2]
end

mutual
theorem bumpElem_skip (src bumped : String) :
    ∀ e : XElem, bumpElem src bumped true e = (e, false, none)
  | .mk tag text kids => by
    have ih := bumpElems_skip src bumped kids
    simp [bumpElem, ih]
theorem bumpElems_skip (src bumped : String) :
    ∀ es : XList, bumpElems src bumped true es = (es, false, none)
  | .nil => by simp [bumpElems]
  | .cons e es => by
    have ih1 := bumpElem_skip src bumped e
    have ih2 := bumpElems_skip src bumped es
    simp [bumpElems, ih1, ih2]
end

/-- An excluded tag is never a `version` tag. -/
theorem skipTag_not_version {t : String} (h : isSkipTag t = true) :
    isVersionTag t = false := by
  have h2 : localTag t = "dependency" ∨ localTag t = "dependencies" ∨
      localTag t = "dependencyManagement" ∨ localTag t = "plugin" ∨
      localTag t = "plugins" := by
    simpa [isSkipTag, skipTags] using h
  rcases h2 with h2 | h2 | h2 | h2 | h2 <;>
    simp [isVersionTag, h2, pyLower]

/-- The subtree rooted at an element with an excluded tag is returned
unchanged by both tree walks, with no modification reported from it. -/
theorem skip_subtree_unchanged (src bumped : String) (anc : Bool) (e : XElem)
    (h : isSkipTag e.tag = true) :
    stripElem src anc e = (e, false) ∧ bumpElem src bumped anc e = (e, false, none) := by
  rcases e with ⟨tag, text, kids⟩
  have hv : isVersionTag tag = false := skipTag_not_version h
  have h' : isSkipTag tag = true := h
  constructor
  · have hk := stripElems_skip src kids
    simp [stripElem, hv, h', hk]
  · have hk := bumpElems_skip src bumped kids
    simp [bumpElem, hv, h', hk]

/-- The numeric value `pyInt` computes on a digit string. -/
def pyIntVal (l : List Char) : Nat :=
  l.foldl (fun a c => a * 10 + (c.toNat - 48)) 0

/-- `pyInt` succeeds on non-empty digit strings with value `pyIntVal`. -/
theorem pyInt_digits {a : List Char} (ha : a ≠ []) (da : a.all isDig = true) :
    pyInt a = some (pyIntVal a) := by
  cases a with
  | nil => exact absurd rfl ha
  | cons c cs => simp [pyInt, da, pyIntVal]

/-- A digit is not a dot. -/
theorem isDig_ne_dot {c : Char} (h : isDig c = true) : c ≠ '.' := by
  intro he
  subst he
  simp [isDig] at h

/-- Splitting consumes a dot after a dot-free block. -/
theorem pySplitDot_append_dot (a r : List Char) (ha : ∀ x ∈ a, x ≠ '.') :
    pySplitDot (a ++ '.' :: r) = a :: pySplitDot r := by
  induction a with
  | nil => simp [pySplitDot]
  | cons c a ih =>
    have hc : c ≠ '.' := ha c (by simp)
    have ih2 := ih (fun x hx => ha x (by simp [hx]))
    have e : (c :: a) ++ '.' :: r = c :: (a ++ '.' :: r) := rfl
    rw [e]
    show (if c = '.' then [] :: pySplitDot (a ++ '.' :: r)
      else match pySplitDot (a ++ '.' :: r) with
        | h :: t => (c :: h) :: t
        | [] => [[c]]) = (c :: a) :: pySplitDot r
    rw [if_neg hc, ih2]

/-- Splitting a dot-free block yields the single block. -/
theorem pySplitDot_nodot (a : List Char) (ha : ∀ x ∈ a, x ≠ '.') :
    pySplitDot a = [a] := by
  induction a with
  | nil => rfl
  | cons c a ih =>
    have hc : c ≠ '.' := ha c (by simp)
    have ih2 := ih (fun x hx => ha x (by simp [hx]))
    show (if c = '.' then [] :: pySplitDot a
      else match pySplitDot a with
        | h :: t => (c :: h) :: t
        | [] => [[c]]) = [c :: a]
    rw [if_neg hc, ih2]

/-- On any `A.B.C` semver (three non-empty ASCII digit runs), the bump
policy of the source returns `A.(B+1).0` — a minor bump of its single
argument. -/
theorem bump_minor_semver_eq (a b c : List Char)
    (ha : a ≠ []) (hb : b ≠ []) (hc : c ≠ [])
    (da : a.all isDig = true) (db : b.all isDig = true) (dc : c.all isDig = true) :
    bump_minor_semver (String.mk (a ++ '.' :: b ++ '.' :: c))
      = some (String.mk (natToDec (pyIntVal a) ++ '.' :: natToDec (pyIntVal b + 1) ++ '.' :: ['0'])) := by
  have na : ∀ x ∈ a, x ≠ '.' := by
    intro x hx
    exact isDig_ne_dot (by have := List.all_eq_true.mp da x hx; simpa using this)
  have nb : ∀ x ∈ b, x ≠ '.' := by
    intro x hx
    exact isDig_ne_dot (by have := List.all_eq_true.mp db x hx; simpa using this)
  have nc : ∀ x ∈ c, x ≠ '.' := by
    intro x hx
    exact isDig_ne_dot (by have := List.all_eq_true.mp dc x hx; simpa using this)
  have hsplit : pySplitDot (a ++ '.' :: b ++ '.' :: c) = [a, b, c] := by
    have e : a ++ '.' :: b ++ '.' :: c = a ++ '.' :: (b ++ '.' :: c) := by simp
    rw [e, pySplitDot_append_dot a _ na, pySplitDot_append_dot b _ nb, pySplitDot_nodot c nc]
  simp only [bump_minor_semver]
  rw [hsplit]
  simp only []
  rw [pyInt_digits ha da, pyInt_digits hb db, pyInt_digits hc dc]

/-- A bumped `package.json` value is never the empty string. -/
theorem str_append_ne_empty (x y : String) (hy : y ≠ "") : x ++ y ≠ "" := by
  intro h
  have : (x ++ y).data = [] := by rw [h]
  rw [strData_append] at this
  rcases List.append_eq_nil.mp this with ⟨_, h2⟩
  exact hy (strDataInj (by simpa using h2))

/-- Whatever `new_version_global` holds, it came from the loop body. -/
theorem pkgBumpGo_last {src bumped : String} :
    ∀ (files : List (String × Option String)) {w : String},
      (pkgBumpGo src bumped files).2.2 = some w →
      ∃ v, pkgBumpField src bumped v = some w := by
  intro files
  induction files with
  | nil => intro w h; simp [pkgBumpGo] at h
  | cons f rest ih =>
    intro w h
    rcases f with ⟨name, field⟩
    simp only [pkgBumpGo] at h
    split at h
    · rename_i new_v heq
      split at h
      · rename_i w2 hr
        simp only [Option.some.injEq] at h
        subst h
        exact ih hr
      · simp only [Option.some.injEq] at h
        subst h
        cases field with
        | none => simp at heq
        | some v => exact ⟨v, heq⟩
    · exact ih h

/-- No changed files means `new_version_global` was never set. -/
theorem pkgBumpGo_nil_changed {src bumped : String} :
    ∀ (files : List (String × Option String)),
      (pkgBumpGo src bumped files).2.1 = [] →
      (pkgBumpGo src bumped files).2.2 = none := by
  intro files
  induction files with
  | nil => intro h; simp [pkgBumpGo]
  | cons f rest ih =>
    intro h
    rcases f with ⟨name, field⟩
    simp only [pkgBumpGo] at h ⊢
    split at h
    · simp at h
    · rename_i heq
      simp only [] at h ⊢
      exact ih h

/-- Characterization of the anchored group match after `release/`. -/
theorem extractCore_eq_some {rest core : List Char} :
    extractCore rest = some core ↔
      ∃ t, (t = [] ∨ t = ['\n']) ∧ rest = core ++ t ∧ isStrictSemver core = true := by
  constructor
  · intro h
    unfold extractCore at h
    rcases hm : matchSemverAt rest with _ | ⟨m, tail⟩
    · rw [hm] at h; exact absurd h (by simp)
    rw [hm] at h
    simp only [] at h
    by_cases ht : tail = [] ∨ tail = ['\n']
    · rw [if_pos ht] at h
      simp only [Option.some.injEq] at h
      subst h
      obtain ⟨d1, d2, d3, h1, h2, h3, a1, a2, a3, hms, hl, hr⟩ := matchSemverAt_sound hm
      refine ⟨tail, ht, hl, ?_⟩
      have hmm : matchSemverAt (m ++ []) = some (m, []) := by
        rw [hms]
        exact matchSemverAt_build d1 d2 d3 [] h1 h2 h3 a1 a2 a3 (by simp [headDig])
      have hmm2 : matchSemverAt m = some (m, []) := by simpa using hmm
      simp [isStrictSemver, hmm2]
    · rw [if_neg ht] at h; exact absurd h (by simp)
  · rintro ⟨t, ht, hrest, hstrict⟩
    have hm0 : matchSemverAt core = some (core, []) := by
      simp only [isStrictSemver] at hstrict
      rcases hmc : matchSemverAt core with _ | ⟨m, r⟩
      · rw [hmc] at hstrict; simp at hstrict
      rw [hmc] at hstrict
      simp only [decide_eq_true_eq] at hstrict
      subst hstrict
      obtain ⟨_, _, _, _, _, _, _, _, _, _, hl, _⟩ := matchSemverAt_sound hmc
      simp only [List.append_nil] at hl
      rw [hl]
    obtain ⟨d1, d2, d3, h1, h2, h3, a1, a2, a3, hms, hl, _⟩ := matchSemverAt_sound hm0
    have hmt : matchSemverAt (core ++ t) = some (core, t) := by
      have hht : headDig t = false := by
        rcases ht with ht | ht <;> subst ht <;> simp [headDig, isDig]
      rw [hms]
      exact matchSemverAt_build d1 d2 d3 t h1 h2 h3 a1 a2 a3 hht
    unfold extractCore
    rw [hrest, hmt]
    simp only []
    rw [if_pos ht]

/-- The literal data of `"release/"`. -/
theorem release_prefix_data :
    ("release/" : String).data = ['r', 'e', 'l', 'e', 'a', 's', 'e', '/'] := rfl

/-- Characterization of `extract_version_from_branch`: exactly the
branches `release/<digits>.<digits>.<digits>` (with Python's `$` also
admitting one final newline) are accepted, and the embedded triple is
returned. In particular no `hotfix/` branch is ever accepted. -/
theorem extract_version_eq_some {b v : String} :
    extract_version_from_branch b = some v ↔
      isStrictSemver v.data = true ∧
        (b = "release/" ++ v ∨ b = "release/" ++ v ++ "\n") := by
  constructor
  · intro h
    unfold extract_version_from_branch at h
    split at h
    · rename_i rest heq
      rcases hcore : extractCore rest with _ | core
      · rw [hcore] at h; exact absurd h (by simp)
      rw [hcore] at h
      simp only [Option.some.injEq] at h
      subst h
      obtain ⟨t, ht, hrest, hstrict⟩ := extractCore_eq_some.mp hcore
      refine ⟨by simpa using hstrict, ?_⟩
      rcases ht with ht | ht
      · left
        apply strDataInj
        rw [strData_append, heq, hrest, ht, release_prefix_data]
        simp
      · right
        apply strDataInj
        rw [strData_append, strData_append, heq, hrest, ht, release_prefix_data]
        simp
    · exact absurd h (by simp)
  · rintro ⟨hstrict, hb | hb⟩
    · subst hb
      have hdata : ("release/" ++ v).data
          = 'r' :: 'e' :: 'l' :: 'e' :: 'a' :: 's' :: 'e' :: '/' :: v.data := by
        rw [strData_append, release_prefix_data]
        rfl
      unfold extract_version_from_branch
      rw [hdata]
      have hcore : extractCore v.data = some v.data :=
        extractCore_eq_some.mpr ⟨[], Or.inl rfl, by simp, hstrict⟩
      show (match extractCore v.data with
        | some core => some (String.mk core)
        | none => none) = some v
      rw [hcore]
    · subst hb
      have hdata : ("release/" ++ v ++ "\n").data
          = 'r' :: 'e' :: 'l' :: 'e' :: 'a' :: 's' :: 'e' :: '/' :: (v.data ++ ['\n']) := by
        rw [strData_append, strData_append, release_prefix_data]
        rfl
      unfold extract_version_from_branch
      rw [hdata]
      have hcore : extractCore (v.data ++ ['\n']) = some v.data :=
        extractCore_eq_some.mpr ⟨['\n'], Or.inr rfl, rfl, hstrict⟩
      show (match extractCore (v.data ++ ['\n']) with
        | some core => some (String.mk core)
        | none => none) = some v
      rw [hcore]

/-- The same environment with a prescribed local-tag-collision outcome. -/
def envSetTagExists (e : RunEnv) (x : Bool) : RunEnv :=
  ⟨e.sourceBranch, e.token, e.pkgFiles, e.pomFiles, x, e.releaseExists,
    e.mergeConflict, e.devPkgFiles, e.devPomFiles, e.commitsAhead, e.prMergeFails⟩

/-- An unparseable branch name aborts with the input error before any
external action is attempted. -/
theorem mainRun_bad_branch {env : RunEnv} {b : String}
    (h1 : env.sourceBranch = some b)
    (h2 : extract_version_from_branch b = none) :
    mainRun env = ([], some RunErr.inputBadBranch) := by
  simp only [mainRun, h1, h2]

/-- Tag-and-publish behaviour: the tag push is always attempted (the
local tag-creation failure is caught, and the outcome never depends on
it), while an existing hosted release terminates the run with the
distinguishable `CalledProcessError` of the `gh release create` command,
before any development-line action. -/
theorem mainRun_tag_release {env : RunEnv} {b v tk : String}
    (h1 : env.sourceBranch = some b)
    (h2 : extract_version_from_branch b = some v)
    (h3 : env.token = some tk) :
    GitAct.pushTagA ("v" ++ v) ∈ (mainRun env).1 ∧
    (env.releaseExists = true →
      (mainRun env).2 = some (RunErr.procErr (GitAct.createReleaseA ("v" ++ v))) ∧
      GitAct.mergeMainA ∉ (mainRun env).1 ∧
      GitAct.pushSyncA ∉ (mainRun env).1) ∧
    mainRun (envSetTagExists env true) = mainRun (envSetTagExists env false) := by
  refine ⟨?_, ?_, rfl⟩
  · simp only [mainRun, h1, h2, h3]
    repeat' split
    all_goals simp
  · intro hrel
    simp only [mainRun, h1, h2, h3, hrel]
    refine ⟨by simp, ?_, ?_⟩
    · repeat' split
      all_goals simp_all
    · repeat' split
      all_goals simp_all

/-- The string returned by the `package.json` bump pass is never empty:
either it is the last rewritten value `prefix + bumped + "-snapshot"`, or
the `"unknown-prefix-..."` sentinel. -/
theorem pkg_bump_version_ne_empty {src : String}
    {files : List (String × Option String)}
    {r : List (String × Option String) × List String × String}
    (h : update_package_json_add_snapshot_bump src files = some r) :
    r.2.2 ≠ "" := by
  simp only [update_package_json_add_snapshot_bump] at h
  rcases hb : bump_minor_semver src with _ | bumped
  · rw [hb] at h; exact absurd h (by simp)
  rw [hb] at h
  simp only [Option.some.injEq] at h
  subst h
  rcases hlast : (pkgBumpGo src bumped files).2.2 with _ | w
  · simp only []
    exact str_append_ne_empty _ _ (by decide)
  · simp only []
    obtain ⟨v, hv⟩ := pkgBumpGo_last files hlast
    obtain ⟨_, p, sv, suf, _, _, hw, _⟩ := pkgBumpField_eq_some.mp hv
    rw [hw]
    exact str_append_ne_empty _ _ (by decide)

/-- When no `package.json` changed, the bump pass returns the sentinel. -/
theorem pkg_bump_fallback {src bumped : String}
    {files : List (String × Option String)}
    {r : List (String × Option String) × List String × String}
    (h : update_package_json_add_snapshot_bump src files = some r)
    (hch : r.2.1 = []) (hb : bump_minor_semver src = some bumped) :
    r.2.2 = "unknown-prefix-" ++ bumped ++ "-snapshot" := by
  simp only [update_package_json_add_snapshot_bump, hb] at h
  simp only [Option.some.injEq] at h
  subst h
  simp only [] at hch
  rw [pkgBumpGo_nil_changed files hch]

/-- The sync-pass commit message always embeds the `package.json` pass's
string (it is never falsy, so the `or`-selection never falls through to
the pom string); when only pom files changed, that string is the
sentinel. -/
theorem mainRun_commit_msg {env : RunEnv} {b v tk : String}
    {bp : List (String × Option String) × List String × String}
    {bm : List (String × XElem) × List String × String}
    (h1 : env.sourceBranch = some b)
    (h2 : extract_version_from_branch b = some v)
    (h3 : env.token = some tk)
    (h4 : env.releaseExists = false)
    (h5 : env.mergeConflict = false)
    (h6 : update_package_json_add_snapshot_bump v env.devPkgFiles = some bp)
    (h7 : update_pom_add_snapshot_bump v env.devPomFiles = some bm)
    (h9 : bm.2.1 ≠ []) :
    GitAct.commitSyncA ("chore: bump dev version to " ++ bp.2.2) ∈ (mainRun env).1 ∧
    (∀ bumped, bp.2.1 = [] → bump_minor_semver v = some bumped →
      bp.2.2 = "unknown-prefix-" ++ bumped ++ "-snapshot") := by
  constructor
  · have hne := pkg_bump_version_ne_empty h6
    simp only [mainRun, h1, h2, h3, h4, h5, h6, h7]
    repeat' split
    all_goals simp_all [new_version_display]
  · intro bumped hch hb
    exact pkg_bump_fallback h6 hch hb

/-- With a replacement at least as long as the token, substitution never
shortens the text. -/
theorem subSnapAux_length_ge {repl : List Char} (hr : 8 ≤ repl.length) (fuel : Nat) :
    ∀ l : List Char, l.length ≤ fuel → l.length ≤ (subSnapAux repl fuel l).length := by
  induction fuel with
  | zero =>
    intro l h
    simp [subSnapAux]
  | succ f ih =>
    intro l h
    cases l with
    | nil => simp [subSnapAux]
    | cons c cs =>
      simp only [subSnapAux]
      simp only [List.length_cons] at h
      have hcs : cs.length ≤ f := Nat.le_of_succ_le_succ h
      split
      · have := ih (cs.drop 7) (by simpa using Nat.le_trans (Nat.sub_le _ _) hcs)
        simp only [List.length_drop] at this
        simp only [List.length_append, List.length_cons]
        -- the token spans c plus 7 of cs, so there are at least 7 characters in cs
        rename_i hst
        have hlen : 7 ≤ cs.length := by
          rcases cs with _ | ⟨a1, _ | ⟨a2, _ | ⟨a3, _ | ⟨a4, _ | ⟨a5, _ | ⟨a6, _ | ⟨a7, t⟩⟩⟩⟩⟩⟩⟩ <;>
            first
              | (simp only [List.length_cons]; omega)
              | (exfalso
                 simp [startsSnap, snapTok, ciIsPrefixOf] at hst)
        omega
      · have := ih cs hcs
        simp only [List.length_cons]
        omega

/-- With a replacement strictly longer than the token, substitution
strictly lengthens a text containing the token. -/
theorem subSnapAux_length_gt {repl : List Char} (hr : 9 ≤ repl.length) (fuel : Nat) :
    ∀ l : List Char, l.length ≤ fuel → containsSnapL l = true →
      l.length < (subSnapAux repl fuel l).length := by
  induction fuel with
  | zero =>
    intro l h hc
    cases l with
    | nil => simp [containsSnapL] at hc
    | cons c cs => simp at h
  | succ f ih =>
    intro l h hc
    cases l with
    | nil => simp [containsSnapL] at hc
    | cons c cs =>
      simp only [subSnapAux]
      simp only [List.length_cons] at h
      have hcs : cs.length ≤ f := Nat.le_of_succ_le_succ h
      split
      · have := subSnapAux_length_ge (Nat.le_trans (by omega) hr) f (cs.drop 7)
          (by simpa using Nat.le_trans (Nat.sub_le _ _) hcs)
        simp only [List.length_drop] at this
        simp only [List.length_append, List.length_cons]
        rename_i hst
        have hlen : 7 ≤ cs.length := by
          rcases cs with _ | ⟨a1, _ | ⟨a2, _ | ⟨a3, _ | ⟨a4, _ | ⟨a5, _ | ⟨a6, _ | ⟨a7, t⟩⟩⟩⟩⟩⟩⟩ <;>
            first
              | (simp only [List.length_cons]; omega)
              | (exfalso
                 simp [startsSnap, snapTok, ciIsPrefixOf] at hst)
        omega
      · rename_i hno
        have hccs : containsSnapL cs = true := by
          simp only [containsSnapL_cons, Bool.or_eq_true] at hc
          rcases hc with h2 | h2
          · exact absurd h2 hno
          · exact h2
        have := ih cs hcs hccs
        simp only [List.length_cons]
        omega

/-- The pom bump element transform never reports an unchanged element
text. -/
theorem pomBumpText_some_ne {src bumped raw w : String}
    (h : pomBumpText src bumped raw = some w) : w ≠ pyStrip raw := by
  rcases hs : split_version_str (pyStrip raw) with _ | ⟨⟨p, sv, suf⟩⟩
  · obtain ⟨_, hc, hw⟩ := (pomBumpText_eq_some_of_none hs).mp h
    intro heq
    have hgt := @subSnapAux_length_gt
      (bumped.data ++ ('-' :: ['S', 'N', 'A', 'P', 'S', 'H', 'O', 'T']))
      (by simp) (pyStrip raw).data.length (pyStrip raw).data (Nat.le_refl _) hc
    rw [hw] at heq
    have hdata : (String.mk (subSnapL
        (bumped.data ++ ('-' :: ['S', 'N', 'A', 'P', 'S', 'H', 'O', 'T']))
        (pyStrip raw).data)).data = (pyStrip raw).data := by rw [heq]
    simp only [subSnapL] at hdata
    rw [hdata] at hgt
    omega
  · obtain ⟨_, _, hne⟩ := (pomBumpText_eq_some_of_split hs).mp h
    exact hne

/-- The semver part of a successful decomposition is a strict
`digits.digits.digits` string. -/
theorem split_some_strict {v p sv suf : String}
    (hs : split_version_str v = some (p, sv, suf)) :
    isStrictSemver sv.data = true := by
  have hf := split_version_str_eq.mp hs
  obtain ⟨_, hm, _⟩ := findAux_sound hf
  obtain ⟨d1, d2, d3, h1, h2, h3, a1, a2, a3, hms, _, _⟩ := matchSemverAt_sound hm
  have hmm : matchSemverAt (sv.data ++ []) = some (sv.data, []) := by
    rw [hms]
    exact matchSemverAt_build d1 d2 d3 [] h1 h2 h3 a1 a2 a3 (by simp [headDig])
  have hmm2 : matchSemverAt sv.data = some (sv.data, []) := by simpa using hmm
  simp [isStrictSemver, hmm2]

/-- No position inside the prefix of a successful decomposition matches:
the scan really returns the first match. -/
theorem split_some_first {v p sv suf : String}
    (hs : split_version_str v = some (p, sv, suf)) :
    ∀ i < p.data.length, matchSemverAt (v.data.drop i) = none := by
  have hf := split_version_str_eq.mp hs
  obtain ⟨_, _, h3⟩ := findAux_sound hf
  exact h3

/-- A token occurrence in the right part survives prepending. -/
theorem containsSnapL_append_right (a : List Char) {b : List Char}
    (h : containsSnapL b = true) : containsSnapL (a ++ b) = true := by
  induction a with
  | nil => simpa using h
  | cons c cs ih =>
    rw [List.cons_append, containsSnapL_cons]
    simp [ih]

/-- When the stripped text contains no marker at all, the pom strip
transform and the flat strip transform agree on it. -/
theorem strip_modes_agree {src v w p sv suf : String}
    (hs : split_version_str (pyStrip v) = some (p, sv, suf))
    (hm : containsSnap (pyStrip v) = false) :
    (pomStripText src v = some w ↔ pkgStripField src (pyStrip v) = some w) := by
  have hfacts := split_some_facts hs
  have hsuf : containsSnap suf = false := by
    cases hcs : containsSnap suf with
    | false => rfl
    | true =>
      exfalso
      have hlist : containsSnapL (pyStrip v).data = true := by
        rw [hfacts.1, strData_append]
        exact containsSnapL_append_right _ hcs
      have : containsSnap (pyStrip v) = true := hlist
      rw [hm] at this
      exact absurd this (by simp)
  constructor
  · intro h
    obtain ⟨hc, hw, hne⟩ := (pomStripText_eq_some_of_split hs).mp h
    have hc2 : sv = src := by
      rcases hc with hc | hc | hc
      · exact hc
      · rw [hsuf] at hc; exact absurd hc (by simp)
      · rw [hm] at hc; exact absurd hc (by simp)
    exact pkgStripField_eq_some.mpr ⟨hfacts.2.2, p, sv, suf, hs, Or.inl hc2, hw, hne⟩
  · intro h
    obtain ⟨_, p2, sv2, suf2, hs2, hc2, hw2, hne2⟩ := pkgStripField_eq_some.mp h
    rw [hs] at hs2
    simp only [Option.some.injEq, Prod.mk.injEq] at hs2
    obtain ⟨e1, e2, e3⟩ := hs2
    subst e1
    subst e2
    subst e3
    exact (pomStripText_eq_some_of_split hs).mpr ⟨Or.imp_right Or.inl hc2, hw2, hne2⟩

/-- C1 (counterexample to the claim as stated): the claim predicts
`nextDevVersion(previous="1.2.0", target="2.0.0") = "3.0.0"`, but the
code's bump policy (`bump_minor_semver`, invoked on the source semver
alone) yields `"2.1.0"` — there is no major-component comparison. -/
theorem C1_counterexample :
    bump_minor_semver "2.0.0" = some "2.1.0" ∧
      some ("2.1.0" : String) ≠ some ("3.0.0" : String) := by decide

/-- C1 (amended): the bump policy ignores the previous version entirely
and always performs a minor bump of its single argument: on any semver
`A.B.C` (non-empty ASCII digit runs) it returns `A.(B+1).0`; in
particular target `2.0.0` gives `2.1.0` (not `3.0.0`) and target `1.3.5`
gives `1.4.0`. -/
theorem C1_theorem (a b c : List Char)
    (ha : a ≠ []) (hb : b ≠ []) (hc : c ≠ [])
    (da : a.all isDig = true) (db : b.all isDig = true) (dc : c.all isDig = true) :
    bump_minor_semver (String.mk (a ++ '.' :: b ++ '.' :: c))
      = some (String.mk (natToDec (pyIntVal a) ++ '.' :: natToDec (pyIntVal b + 1) ++ '.' :: ['0']))
    ∧ bump_minor_semver "2.0.0" = some "2.1.0"
    ∧ bump_minor_semver "1.3.5" = some "1.4.0" :=
  ⟨bump_minor_semver_eq a b c ha hb hc da db dc, by decide, by decide⟩

/-- Witness for C1 at the concrete semver `2.0.0`. -/
theorem C1_witness :
    bump_minor_semver (String.mk (['2'] ++ '.' :: ['0'] ++ '.' :: ['0']))
      = some (String.mk (natToDec (pyIntVal ['2']) ++ '.' :: natToDec (pyIntVal ['0'] + 1) ++ '.' :: ['0']))
    ∧ bump_minor_semver "2.0.0" = some "2.1.0"
    ∧ bump_minor_semver "1.3.5" = some "1.4.0" :=
  C1_theorem ['2'] ['0'] ['0'] (by decide) (by decide) (by decide)
    (by decide) (by decide) (by decide)

/-- C2 (counterexample to the claim as stated): the field `9.9.9-beta`
decomposes successfully, yet the snapshot pass with source `1.2.0` leaves
it unchanged and reports no changed file — the rewrite is not
unconditional. -/
theorem C2_counterexample :
    split_version_str "9.9.9-beta" = some ("", "9.9.9", "-beta") ∧
    pkgBumpField "1.2.0" "1.3.0" "9.9.9-beta" = none ∧
    update_package_json_add_snapshot_bump "1.2.0" [("package.json", some "9.9.9-beta")]
      = some ([("package.json", some "9.9.9-beta")], [], "unknown-prefix-1.3.0-snapshot") := by
  decide

/-- C2 (amended): in bump-and-mark mode a decomposed field is rewritten
to `prefix + bumped + marker` exactly when its semver equals the source
semver or its suffix contains the case-insensitive marker, and only when
the result differs from the current text; other decomposed fields are
left unchanged. This holds for the flat loop body and for the pom
element transform on decomposable text alike. -/
theorem C2_theorem (src bumped v w : String) :
    (pkgBumpField src bumped v = some w ↔
      v ≠ "" ∧ ∃ p sv suf, split_version_str v = some (p, sv, suf) ∧
        (sv = src ∨ containsSnap suf = true) ∧ w = p ++ bumped ++ "-snapshot" ∧ w ≠ v) ∧
    (∀ p sv suf, split_version_str (pyStrip v) = some (p, sv, suf) →
      (pomBumpText src bumped v = some w ↔
        (sv = src ∨ containsSnap suf = true) ∧
        w = p ++ bumped ++ "-SNAPSHOT" ∧ w ≠ pyStrip v)) :=
  ⟨pkgBumpField_eq_some, fun _ _ _ hs => pomBumpText_eq_some_of_split hs⟩

/-- Witness for C2: a field at the source semver is bumped and marked. -/
theorem C2_witness : pkgBumpField "1.2.0" "1.3.0" "1.2.0" = some "1.3.0-snapshot" :=
  ( C2_theorem "1.2.0" "1.3.0" "1.2.0" "1.3.0-snapshot").1.mpr
    ⟨by decide, "", "1.2.0", "", by decide, Or.inl rfl, by decide, by decide⟩

/-- C3 (counterexample to the claim as stated): the claim says
`hotfix/1.2.3` yields `1.2.3`, but the code's pattern
`^release\/(\d+\.\d+\.\d+)$` accepts only `release/` branches, so
`hotfix/1.2.3` yields none. -/
theorem C3_counterexample :
    extract_version_from_branch "hotfix/1.2.3" = none ∧
    extract_version_from_branch "release/2.0.0" = some "2.0.0" := by decide

/-- C3 (amended): the extraction accepts exactly the branches
`release/<digits>.<digits>.<digits>` (Python's `$` also admits one final
newline) and returns the embedded triple; every other branch — including
`hotfix/...` and `feature/x` — yields none, and the run then aborts with
the fatal input error before any external action is attempted. -/
theorem C3_theorem :
    (∀ b v : String, extract_version_from_branch b = some v ↔
      isStrictSemver v.data = true ∧
        (b = "release/" ++ v ∨ b = "release/" ++ v ++ "\n")) ∧
    (∀ (env : RunEnv) (b : String), env.sourceBranch = some b →
      extract_version_from_branch b = none →
      mainRun env = ([], some RunErr.inputBadBranch)) ∧
    extract_version_from_branch "feature/x" = none ∧
    extract_version_from_branch "hotfix/1.2.3" = none :=
  ⟨fun _ _ => extract_version_eq_some, fun _ _ h1 h2 => mainRun_bad_branch h1 h2,
    by decide, by decide⟩

/-- Witness for C3: a run on `feature/x` aborts with the input error and
an empty action trace. -/
theorem C3_witness :
    mainRun ⟨some "feature/x", some "t", [], [], false, false, false, [], [], 0, false⟩
      = ([], some RunErr.inputBadBranch) :=
  C3_theorem.2.1 ⟨some "feature/x", some "t", [], [], false, false, false, [], [], 0, false⟩
    "feature/x" rfl (by decide)

/-- C4 (confirmed): `split_version_str` splits its input around the first
left-to-right `\d+\.\d+\.\d+` match — the parts reassemble the input, the
matched part is a strict semver, and no earlier position matches; with no
match anywhere it returns none; and the three documented examples hold. -/
theorem C4_theorem :
    (∀ v p sv suf : String, split_version_str v = some (p, sv, suf) →
      v = p ++ sv ++ suf ∧ isStrictSemver sv.data = true ∧
        ∀ i < p.data.length, matchSemverAt (v.data.drop i) = none) ∧
    (∀ v : String, split_version_str v = none →
      ∀ i, matchSemverAt (v.data.drop i) = none) ∧
    split_version_str "1.2.3-snapshot" = some ("", "1.2.3", "-snapshot") ∧
    split_version_str "cba-1.0.0-SNAPSHOT" = some ("cba-", "1.0.0", "-SNAPSHOT") ∧
    split_version_str "nightly" = none := by
  refine ⟨?_, ?_, by decide, by decide, by decide⟩
  · intro v p sv suf hs
    exact ⟨(split_some_facts hs).1, split_some_strict hs, split_some_first hs⟩
  · intro v hn i
    exact findAux_none (split_version_str_none.mp hn) i

/-- Witness for C4 at `1.2.3-snapshot`. -/
theorem C4_witness :
    ("1.2.3-snapshot" : String) = "" ++ "1.2.3" ++ "-snapshot" ∧
      isStrictSemver ("1.2.3" : String).data = true :=
  ⟨(C4_theorem.1 "1.2.3-snapshot" "" "1.2.3" "-snapshot" (by decide)).1,
    (C4_theorem.1 "1.2.3-snapshot" "" "1.2.3" "-snapshot" (by decide)).2.1⟩

/-- C5 (counterexample to the claim as stated): on the pom element text
`snapshot-2.0.0-rc1` with source `1.0.0`, the claimed condition is false
(semver differs from the source and the suffix `-rc1` has no marker), yet
the pom strip transform rewrites it (the marker sits in the prefix, and
the pom pass also tests the whole text) while the flat transform does
not — the rewrite condition is not uniform across descriptor kinds. -/
theorem C5_counterexample :
    split_version_str (pyStrip "snapshot-2.0.0-rc1")
      = some ("snapshot-", "2.0.0", "-rc1") ∧
    (("2.0.0" : String) ≠ "1.0.0") ∧ containsSnap "-rc1" = false ∧
    pomStripText "1.0.0" "snapshot-2.0.0-rc1" = some "snapshot-2.0.0" ∧
    pkgStripField "1.0.0" "snapshot-2.0.0-rc1" = none := by decide

/-- C5 (amended): in strip mode the flat transform rewrites exactly when
the decomposed semver equals the source semver or the suffix contains the
case-insensitive marker (and stripping changes the text); the pom
transform adds a third disjunct — a marker occurrence anywhere in the
(whitespace-stripped) text — and also strips markers textually from
non-decomposable text. The two transforms agree on every decomposable
text with no marker occurrence at all. -/
theorem C5_theorem (src v w : String) :
    (pkgStripField src v = some w ↔
      v ≠ "" ∧ ∃ p sv suf, split_version_str v = some (p, sv, suf) ∧
        (sv = src ∨ containsSnap suf = true) ∧ w = p ++ sv ∧ w ≠ v) ∧
    (∀ p sv suf, split_version_str (pyStrip v) = some (p, sv, suf) →
      (pomStripText src v = some w ↔
        (sv = src ∨ containsSnap suf = true ∨ containsSnap (pyStrip v) = true) ∧
        w = p ++ sv ∧ w ≠ pyStrip v)) ∧
    (∀ p sv suf, split_version_str (pyStrip v) = some (p, sv, suf) →
      containsSnap (pyStrip v) = false →
      (pomStripText src v = some w ↔ pkgStripField src (pyStrip v) = some w)) :=
  ⟨pkgStripField_eq_some,
    fun _ _ _ hs => pomStripText_eq_some_of_split hs,
    fun _ _ _ hs hm => strip_modes_agree hs hm⟩

/-- Witness for C5: a marked field at the source semver is stripped by
the pom transform. -/
theorem C5_witness : pomStripText "1.2.0" "1.2.0-SNAPSHOT" = some "1.2.0" :=
  (( C5_theorem "1.2.0" "1.2.0-SNAPSHOT" "1.2.0").2.1 "" "1.2.0" "-SNAPSHOT"
      (by decide)).mpr ⟨Or.inl rfl, by decide, by decide⟩

/-- C6 (confirmed): a rewrite that would reproduce the current text is a
no-op — none of the four field/element transforms ever reports a result
equal to its input (`some w` models "file written and reported changed") —
and strip mode is idempotent: re-stripping a stripped flat field changes
nothing, and a descriptor already at the target semver with no marker is
untouched by both strip transforms. -/
theorem C6_theorem :
    (∀ src v w : String, pkgStripField src v = some w → w ≠ v) ∧
    (∀ src raw w : String, pomStripText src raw = some w → w ≠ pyStrip raw) ∧
    (∀ src bumped v w : String, pkgBumpField src bumped v = some w → w ≠ v) ∧
    (∀ src bumped raw w : String, pomBumpText src bumped raw = some w → w ≠ pyStrip raw) ∧
    (∀ src v w : String, pkgStripField src v = some w → pkgStripField src w = none) ∧
    (∀ src v p : String, split_version_str v = some (p, src, "") →
      containsSnap v = false → pyStrip v = v →
      pkgStripField src v = none ∧ pomStripText src v = none) :=
  ⟨fun _ _ _ => pkgStripField_some_ne, fun _ _ _ => pomStripText_some_ne,
    fun _ _ _ _ => pkgBumpField_some_ne, fun _ _ _ _ => pomBumpText_some_ne,
    fun _ _ _ => pkgStripField_again,
    fun _ _ _ hs hm hstr => strip_at_target_none hs hm hstr⟩

/-- Witness for C6: the clean descriptor `1.2.0` at target `1.2.0` is
untouched by both strip transforms. -/
theorem C6_witness :
    pkgStripField "1.2.0" "1.2.0" = none ∧ pomStripText "1.2.0" "1.2.0" = none :=
  C6_theorem.2.2.2.2.2 "1.2.0" "1.2.0" "" (by decide) (by decide) (by decide)

/-- C7 (confirmed): the whole subtree of any element whose local tag is
`dependency`, `dependencies`, `dependencyManagement`, `plugin` or
`plugins` is returned unchanged by both the strip walk and the
bump-and-mark walk, with no modification reported from it — in
particular every `version` element below such an ancestor keeps its text,
regardless of its content. -/
theorem C7_theorem (src bumped : String) (anc : Bool) (e : XElem)
    (h : isSkipTag e.tag = true) :
    stripElem src anc e = (e, false) ∧ bumpElem src bumped anc e = (e, false, none) :=
  skip_subtree_unchanged src bumped anc e h

/-- Witness for C7: a `version` element under a `dependency` element is
untouched by both walks. -/
theorem C7_witness :
    stripElem "1.0.0" false
        (XElem.mk "dependency" ""
          (XList.cons (XElem.mk "version" "1.0.0-SNAPSHOT" XList.nil) XList.nil))
      = (XElem.mk "dependency" ""
          (XList.cons (XElem.mk "version" "1.0.0-SNAPSHOT" XList.nil) XList.nil), false) ∧
    bumpElem "1.0.0" "1.1.0" false
        (XElem.mk "dependency" ""
          (XList.cons (XElem.mk "version" "1.0.0-SNAPSHOT" XList.nil) XList.nil))
      = (XElem.mk "dependency" ""
          (XList.cons (XElem.mk "version" "1.0.0-SNAPSHOT" XList.nil) XList.nil), false, none) :=
  C7_theorem "1.0.0" "1.1.0" false
    (XElem.mk "dependency" ""
      (XList.cons (XElem.mk "version" "1.0.0-SNAPSHOT" XList.nil) XList.nil))
    (by decide)

/-- C8 (confirmed): in the tag-and-publish step the tag push is always in
the attempted-action trace (and the run's outcome is independent of
whether local tag creation failed — that exception is caught), whereas an
already-existing hosted release terminates the run with the
distinguishable `CalledProcessError` of the `gh release create` command,
with no development-line action (no merge into the sync branch, no sync
push) ever attempted. -/
theorem C8_theorem {env : RunEnv} {b v tk : String}
    (h1 : env.sourceBranch = some b)
    (h2 : extract_version_from_branch b = some v)
    (h3 : env.token = some tk) :
    GitAct.pushTagA ("v" ++ v) ∈ (mainRun env).1 ∧
    (env.releaseExists = true →
      (mainRun env).2 = some (RunErr.procErr (GitAct.createReleaseA ("v" ++ v))) ∧
      GitAct.mergeMainA ∉ (mainRun env).1 ∧
      GitAct.pushSyncA ∉ (mainRun env).1) ∧
    mainRun (envSetTagExists env true) = mainRun (envSetTagExists env false) :=
  mainRun_tag_release h1 h2 h3

/-- Witness for C8: a run whose local tag already exists and whose hosted
release already exists still pushes the tag, then stops with the
duplicate-release process error. -/
theorem C8_witness :
    GitAct.pushTagA ("v" ++ "1.0.0")
        ∈ (mainRun ⟨some "release/1.0.0", some "tk", [], [], true, true, false,
            [], [], 0, false⟩).1 ∧
      (mainRun ⟨some "release/1.0.0", some "tk", [], [], true, true, false,
          [], [], 0, false⟩).2
        = some (RunErr.procErr (GitAct.createReleaseA ("v" ++ "1.0.0"))) :=
  ⟨(C8_theorem rfl (by decide) rfl).1,
    ((C8_theorem rfl (by decide) rfl).2.1 rfl).1⟩

/-- C9 (the code violates the claim): the script computes the declared
namespace of a pom document (`xml_namespace_of`) but never registers it
with the serializer, and `xml.etree.ElementTree` emits elements of an
unregistered namespace with a generated `ns0:` prefix alias — the
rewritten document's root is serialized as `ns0:project`, not as a
prefix-free `project` in the preserved default namespace. -/
theorem C9_theorem :
    xml_namespace_of "\x7bhttp://maven.apache.org/POM/4.0.0\x7dproject"
      = some "http://maven.apache.org/POM/4.0.0" ∧
    et_write_root_tag "\x7bhttp://maven.apache.org/POM/4.0.0\x7dproject" = "ns0:project" ∧
    ("ns0:project" : String) ≠ "project" := by decide

/-- C10 (confirmed): the string returned by the `package.json` bump pass
is never empty — when nothing changed it is the
`unknown-prefix-<bumped>-snapshot` sentinel — so the truthiness selection
of line 352 always picks it, and in a run where only pom files change the
sync commit message embeds the sentinel. -/
theorem C10_theorem :
    (∀ (src : String) (files : List (String × Option String))
        (r : List (String × Option String) × List String × String),
      update_package_json_add_snapshot_bump src files = some r → r.2.2 ≠ "") ∧
    (∀ (src bumped : String) (files : List (String × Option String))
        (r : List (String × Option String) × List String × String),
      update_package_json_add_snapshot_bump src files = some r → r.2.1 = [] →
      bump_minor_semver src = some bumped →
      r.2.2 = "unknown-prefix-" ++ bumped ++ "-snapshot") ∧
    (∀ a b : String, a ≠ "" → new_version_display a b = a) ∧
    (∀ (env : RunEnv) (b v tk : String)
        (bp : List (String × Option String) × List String × String)
        (bm : List (String × XElem) × List String × String),
      env.sourceBranch = some b → extract_version_from_branch b = some v →
      env.token = some tk → env.releaseExists = false → env.mergeConflict = false →
      update_package_json_add_snapshot_bump v env.devPkgFiles = some bp →
      update_pom_add_snapshot_bump v env.devPomFiles = some bm →
      bm.2.1 ≠ [] →
      GitAct.commitSyncA ("chore: bump dev version to " ++ bp.2.2) ∈ (mainRun env).1 ∧
      (∀ bumped, bp.2.1 = [] → bump_minor_semver v = some bumped →
        bp.2.2 = "unknown-prefix-" ++ bumped ++ "-snapshot")) :=
  ⟨fun _ _ _ => pkg_bump_version_ne_empty,
    fun _ _ _ _ h hch hb => pkg_bump_fallback h hch hb,
    fun a b ha => by simp only [new_version_display]; rw [if_pos ha],
    fun _ _ _ _ _ _ h1 h2 h3 h4 h5 h6 h7 h9 =>
      mainRun_commit_msg h1 h2 h3 h4 h5 h6 h7 h9⟩

/-- Witness for C10: a run in which only a pom file changes commits with
the sentinel in the message. -/
theorem C10_witness :
    GitAct.commitSyncA ("chore: bump dev version to " ++ "unknown-prefix-1.1.0-snapshot")
      ∈ (mainRun ⟨some "release/1.0.0", some "tk", [], [], false, false, false, [],
          [("pom.xml", XElem.mk "project" ""
            (XList.cons (XElem.mk "version" "1.0.0" XList.nil) XList.nil))],
          0, false⟩).1 :=
  (C10_theorem.2.2.2
    ⟨some "release/1.0.0", some "tk", [], [], false, false, false, [],
      [("pom.xml", XElem.mk "project" ""
        (XList.cons (XElem.mk "version" "1.0.0" XList.nil) XList.nil))],
      0, false⟩
    "release/1.0.0" "1.0.0" "tk"
    ([], [], "unknown-prefix-1.1.0-snapshot")
    ([("pom.xml", XElem.mk "project" ""
        (XList.cons (XElem.mk "version" "1.1.0-SNAPSHOT" XList.nil) XList.nil))],
      ["pom.xml"], "1.1.0-SNAPSHOT")
    rfl (by decide) rfl rfl rfl (by decide) (by decide) (by decide)).1
